import Mathlib

/-!
Verification of the NeuroBuilder container registry and build-lifecycle
state machine (src/main.py).

The program manipulates a filesystem: a registry file `<root>/registry.json`
mapping container names to container directories, per-container version
directories holding a `recording.cast` and a `container.sif`, and a transient
`<root>/temp/<uuid>` build workspace.

The shallow embedding below models:
 - the filesystem as a set of existing directories plus a map from file paths
   to (abstracted) file contents;
 - paths as lists of components (`os.path.join a b` becomes `a ++ [b]`);
 - `uuid.uuid4()` as an injected stream of identifier strings;
 - `datetime.now().strftime(...)` as an injected clock string;
 - external collaborators (singularity builds/runs, the asciinema
   recorder/player, `rm -rf`) as oracle-driven steps that consume a stream of
   success/failure outcomes and apply their documented filesystem effect on
   success; every attempted external step is appended to an event trace.

Each Python function is translated one-to-one, keeping its name.
-/

namespace NeuroBuilder

/-- A filesystem path, as the list of its components relative to the
filesystem root (`os.path.join p c` is `p ++ [c]`). -/
abbrev Path := List String

/-- `leadsTo p q` holds when `p` is an initial segment of `q`, i.e. the
filesystem object at `q` lives inside the directory tree rooted at `p`
(including `q = p`). -/
def leadsTo : Path → Path → Bool
  | [], _ => true
  | _ :: _, [] => false
  | a :: as, b :: bs => a == b && leadsTo as bs

/-- `strContains haystack needle` is Python's `needle in haystack`
(substring containment). -/
def listHasRun : List Char → List Char → Bool
  | [], _ => true
  | _ :: _, [] => false
  | a :: as, b :: bs => a == b && listHasRun as bs

/-- `listHasSub needle hay`: `needle` occurs contiguously inside `hay`. -/
def listHasSub (needle : List Char) : List Char → Bool
  | [] => needle.isEmpty
  | c :: rest => listHasRun needle (c :: rest) || listHasSub needle rest

/-- Python's `needle in haystack` on strings. -/
def strContains (haystack needle : String) : Bool :=
  listHasSub needle.toList haystack.toList

/-- The persisted registry record: `{"version": ..., "containers": {...}}`.
The `containers` JSON object is modelled as an insertion-ordered association
list, as Python dicts are. -/
structure Registry where
  version : Nat
  containers : List (String × Path)
deriving DecidableEq, Repr

/-- Abstracted file contents, just fine-grained enough to distinguish the
artifacts the program reads back: a parseable registry JSON document, an
unparseable file, a recording, a finalized image, or plain text. -/
inductive FileData where
  | registryData (r : Registry)
  | badData
  | castData
  | sifData
  | textData (s : String)
deriving DecidableEq, Repr

/-- Errors surfaced by the program, covering both the OS-level exceptions of
the filesystem calls and the `raise Exception(...)` sites of main.py. -/
inductive Err where
  | fileExists
  | fileNotFound
  | notADirectory
  | isADirectory
  | corruptRegistry
  | versionNotFound
  | duplicateVersion
  | unknownPackageManager
  | externalToolFailure
deriving DecidableEq, Repr

/-- The filesystem: the set of existing directories and the existing files
with their contents. The filesystem root `[]` always exists. -/
structure FS where
  dirs : List Path
  files : List (Path × FileData)
deriving DecidableEq, Repr

namespace FS

/-- `os.path.isfile`: a file exists at `p`. -/
def isFile (fs : FS) (p : Path) : Bool :=
  (fs.files.lookup p).isSome

/-- A directory exists at `p` (the root `[]` always does). -/
def isDirB (fs : FS) (p : Path) : Bool :=
  p.isEmpty || fs.dirs.contains p

/-- `os.path.exists`. -/
def pathExists (fs : FS) (p : Path) : Bool :=
  fs.isDirB p || fs.isFile p

/-- Record a new directory. -/
def addDir (fs : FS) (p : Path) : FS :=
  { fs with dirs := p :: fs.dirs }

/-- Write (create or overwrite) the file at `p`, unconditionally. -/
def setFile (fs : FS) (p : Path) (d : FileData) : FS :=
  { fs with files := (p, d) :: fs.files.filter (fun f => !(f.1 == p)) }

/-- `os.mkdir`: create the single directory `p`; `FileExistsError` if `p`
exists, `FileNotFoundError` if its parent is missing. -/
def mkdir (fs : FS) (p : Path) : FS × Except Err Unit :=
  if fs.pathExists p then (fs, .error .fileExists)
  else if !(fs.isDirB p.dropLast) then (fs, .error .fileNotFound)
  else (fs.addDir p, .ok ())

/-- Walk from the ensured directory `pre` down the remaining components,
creating each missing level; a file in the way is an error. Partial progress
is kept on failure, as with `os.makedirs`. -/
def ensureDirFrom (fs : FS) (pre : Path) : List String → FS × Except Err Unit
  | [] => (fs, .ok ())
  | c :: rest =>
    let q := pre ++ [c]
    if fs.isFile q then (fs, .error .notADirectory)
    else if fs.isDirB q then fs.ensureDirFrom q rest
    else (fs.addDir q).ensureDirFrom q rest

/-- Create the directory `p` and every missing ancestor. -/
def ensureDir (fs : FS) (p : Path) : FS × Except Err Unit :=
  fs.ensureDirFrom [] p

/-- `os.makedirs(p, exist_ok)`: `FileExistsError` when `p` already exists and
`exist_ok` is false; otherwise create `p` together with missing ancestors. -/
def makedirs (fs : FS) (p : Path) (exist_ok : Bool) : FS × Except Err Unit :=
  if fs.pathExists p && !exist_ok then (fs, .error .fileExists)
  else fs.ensureDir p

/-- `open(p, "w")` followed by a full write: the parent directory must exist
and `p` must not be a directory. -/
def writeFile (fs : FS) (p : Path) (d : FileData) : FS × Except Err Unit :=
  if fs.isDirB p then (fs, .error .isADirectory)
  else if !(fs.isDirB p.dropLast) then (fs, .error .fileNotFound)
  else (fs.setFile p d, .ok ())

/-- `read_json`: parse the file at `p` as a registry record;
`json.JSONDecodeError` (modelled `corruptRegistry`) when unparseable. -/
def readJson (fs : FS) (p : Path) : Except Err Registry :=
  match fs.files.lookup p with
  | some (FileData.registryData r) => .ok r
  | some _ => .error .corruptRegistry
  | none => if fs.isDirB p then .error .isADirectory else .error .fileNotFound

/-- `rm -rf p`: remove the whole subtree rooted at `p`. -/
def rmrf (fs : FS) (p : Path) : FS :=
  { dirs := fs.dirs.filter (fun d => !(leadsTo p d)),
    files := fs.files.filter (fun f => !(leadsTo p f.1)) }

/-- The name of each immediate child of `p` that `q` contributes. -/
def childName (p q : Path) : Option String :=
  if q.length == p.length + 1 && leadsTo p q then q.getLast? else none

/-- `os.listdir p`: the names of the immediate children of directory `p`,
each reported once. -/
def listdir (fs : FS) (p : Path) : Except Err (List String) :=
  if fs.isFile p then .error .notADirectory
  else if !(fs.isDirB p) then .error .fileNotFound
  else .ok ((fs.dirs.filterMap (childName p) ++
             (fs.files.map Prod.fst).filterMap (childName p)).dedup)

/-- Well-formed filesystem: every recorded directory is nonempty and has an
existing parent directory (hence, all its ancestors exist). Any filesystem
reachable from a real OS satisfies this. -/
def wfB (fs : FS) : Bool :=
  fs.dirs.all (fun d => !d.isEmpty && fs.isDirB d.dropLast)

end FS

/-- Observable events: each attempted external-collaborator invocation, plus
each `save_registry` call (the registry mutations). -/
inductive Event where
  | saveRegistryEvent
  | buildSandbox
  | recordSession
  | convertImage
  | cleanup
  | runImage
  | playRecording
deriving DecidableEq, Repr

/-- The program's world: the filesystem, the injected `uuid.uuid4()` stream
with its cursor, the injected success/failure oracle for external processes
with its cursor, the wall-clock version string, and the event trace. -/
structure World where
  fs : FS
  idStream : Nat → String
  idCount : Nat
  ext : Nat → Bool
  extCount : Nat
  clock : String
  trace : List Event

namespace World

/-- Draw the next `uuid.uuid4()` value. -/
def freshUuid (w : World) : String × World :=
  (w.idStream w.idCount, { w with idCount := w.idCount + 1 })

/-- Invoke an external collaborator: record the attempt in the trace, consume
one oracle outcome, and on success apply the collaborator's documented
filesystem effect; on failure (non-zero exit) raise `externalToolFailure`. -/
def extCall (w : World) (e : Event) (onSuccess : FS → FS) : World × Except Err Unit :=
  let good := w.ext w.extCount
  let w2 := { w with extCount := w.extCount + 1, trace := w.trace ++ [e] }
  if good then ({ w2 with fs := onSuccess w2.fs }, .ok ())
  else (w2, .error .externalToolFailure)

end World

/-! ### The translated program (src/main.py) -/

/-- `REGISTRY_VERSION = 1`. -/
def REGISTRY_VERSION : Nat := 1

/-- `generate_container_id`: `str(uuid.uuid4())`. -/
def generate_container_id (w : World) : String × World :=
  w.freshUuid

/-- `generate_version`: `datetime.now().strftime("%Y%m%d_%H%M")`. -/
def generate_version (w : World) : String :=
  w.clock

/-- The path of the persisted registry file, `os.path.join(env, "registry.json")`. -/
def registryPath (env : Path) : Path :=
  env ++ ["registry.json"]

/-- `load_registry(env)`: if the file is absent, `os.makedirs` its parent
directory (note: without `exist_ok`) and return a fresh record; otherwise
parse the file. -/
def load_registry (fs : FS) (env : Path) : FS × Except Err Registry :=
  let registry_path := registryPath env
  if !(fs.pathExists registry_path) then
    match fs.makedirs registry_path.dropLast false with
    | (fs2, .error e) => (fs2, .error e)
    | (fs2, .ok ()) => (fs2, .ok { version := REGISTRY_VERSION, containers := [] })
  else
    (fs, fs.readJson registry_path)

/-- `save_registry(env, registry)`: ensure the parent directory exists
(`exist_ok=True`) when the file is absent, then overwrite the file. -/
def save_registry (fs : FS) (env : Path) (registry : Registry) : FS × Except Err Unit :=
  let registry_path := registryPath env
  match (if !(fs.pathExists registry_path)
         then fs.makedirs registry_path.dropLast true
         else (fs, .ok ())) with
  | (fs2, .error e) => (fs2, .error e)
  | (fs2, .ok ()) => fs2.writeFile registry_path (FileData.registryData registry)

/-- `get_container_path(env, name)`: load the registry; return the stored
path when `name` is registered; otherwise create a fresh
`env/<uuid>` directory, record `name -> path`, and save the registry. -/
def get_container_path (w : World) (env : Path) (name : String) : World × Except Err Path :=
  match load_registry w.fs env with
  | (fs, .error e) => ({ w with fs := fs }, .error e)
  | (fs, .ok registry) =>
    match registry.containers.lookup name with
    | some p => ({ w with fs := fs }, .ok p)
    | none =>
      let (container_id, w2) := generate_container_id { w with fs := fs }
      let container_path := env ++ [container_id]
      match w2.fs.makedirs container_path false with
      | (fs2, .error e) => ({ w2 with fs := fs2 }, .error e)
      | (fs2, .ok ()) =>
        let registry2 :=
          { registry with containers := registry.containers ++ [(name, container_path)] }
        match save_registry fs2 env registry2 with
        | (fs3, .error e) =>
          ({ w2 with fs := fs3, trace := w2.trace ++ [Event.saveRegistryEvent] }, .error e)
        | (fs3, .ok ()) =>
          ({ w2 with fs := fs3, trace := w2.trace ++ [Event.saveRegistryEvent] },
           .ok container_path)

/-- `get_container_version_path(container_path, version, mkdir)`: join the
version directory path; create it when missing and `mkdir` is set; report
whether it already existed. -/
def get_container_version_path (fs : FS) (container_path : Path) (version : String)
    (mkdir : Bool) : FS × Except Err (Path × Bool) :=
  let version_path := container_path ++ [version]
  if !(fs.pathExists version_path) then
    if mkdir then
      match fs.mkdir version_path with
      | (fs2, .error e) => (fs2, .error e)
      | (fs2, .ok ()) => (fs2, .ok (version_path, false))
    else (fs, .ok (version_path, false))
  else (fs, .ok (version_path, true))

/-- `get_package_manager(base)`: pure substring match over the base image
name; `"unknown"` when no pattern matches. -/
def get_package_manager (base : String) : String :=
  if strContains base "ubuntu" then "apt"
  else if strContains base "debian" then "apt"
  else if strContains base "centos" then "yum"
  else if strContains base "fedora" then "yum"
  else "unknown"

/-- `get_template(package_manager, base)`: the singularity build
specification text. Shell quoting characters of the embedded scripts are
elided here; the text is inert data for this development. -/
def get_template (package_manager : String) (base : String) : String :=
  let template := ""
  let template := template ++ "BootStrap: docker\n"
  let template := template ++ "From: " ++ base ++ "\n"
  let template := template ++
    "%post -c /bin/bash\n  set -ex\n  touch /etc/localtime\n  CUSTOM_ENV=/.singularity.d/env/99-zz_custom_env.sh\n  cat >$CUSTOM_ENV <<EOF\n#!/bin/bash\nPS1=\\u@neurodesk-builder:\\w\\$ \nEOF\n  chmod 755 $CUSTOM_ENV\n"
  let template :=
    if strContains base "ubuntu" then
      template ++
        "sed -i -e s/ports.ubuntu.com\\/ubuntu-ports/mirror.aarnet.edu.au\\/pub\\/ubuntu\\/ports/g /etc/apt/sources.list\nsed -i -e s/archive.ubuntu.com\\/ubuntu/mirror.aarnet.edu.au\\/pub\\/ubuntu\\/archive/g /etc/apt/sources.list\n"
    else template
  let template :=
    if package_manager == "apt" then template ++ "apt update -y\n"
    else if package_manager == "yum" then template ++ "yum update -y\n"
    else template
  template

/-- `build_container_sandbox(env, package_manager, base)`: make a fresh
`env/temp/<uuid>` workspace, write the template file into it, and invoke the
external engine to materialize the writable sandbox directory. -/
def build_container_sandbox (w : World) (env : Path) (package_manager base : String) :
    World × Except Err (Path × Path) :=
  let template := get_template package_manager base
  let (tid, w2) := w.freshUuid
  let temp_dir := env ++ ["temp", tid]
  match w2.fs.makedirs temp_dir false with
  | (fs, .error e) => ({ w2 with fs := fs }, .error e)
  | (fs, .ok ()) =>
    let template_file := temp_dir ++ ["template"]
    match fs.writeFile template_file (FileData.textData template) with
    | (fs2, .error e) => ({ w2 with fs := fs2 }, .error e)
    | (fs2, .ok ()) =>
      let sandbox_dir := temp_dir ++ ["sandbox"]
      match World.extCall { w2 with fs := fs2 } Event.buildSandbox
              (fun fs3 => fs3.addDir sandbox_dir) with
      | (w3, .error e) => (w3, .error e)
      | (w3, .ok ()) => (w3, .ok (temp_dir, sandbox_dir))

/-- `get_container_run_command(sandbox)`. -/
def get_container_run_command (sandbox : Path) : String :=
  "sudo singularity shell --writable " ++ String.intercalate "/" sandbox

/-- `get_container_recording_path(version_path)`. -/
def get_container_recording_path (version_path : Path) : Path :=
  version_path ++ ["recording.cast"]

/-- `convert_container_to_sif(version_path, sandbox_path)`: the external
engine freezes the sandbox into `version_path/container.sif`. -/
def convert_container_to_sif (w : World) (version_path sandbox_path : Path) :
    World × Except Err Unit :=
  let _ := sandbox_path
  let container_path := version_path ++ ["container.sif"]
  w.extCall Event.convertImage (fun fs => fs.setFile container_path FileData.sifData)

/-- `cleanup_temporary_path(temp_dir)`: `sudo rm -rf temp_dir`. -/
def cleanup_temporary_path (w : World) (temp_dir : Path) : World × Except Err Unit :=
  w.extCall Event.cleanup (fun fs => fs.rmrf temp_dir)

/-- `asciinema.record_asciicast(recording_path, command)`: the external
recorder writes the capture file on success. -/
def record_asciicast (w : World) (recording_path : Path) : World × Except Err Unit :=
  w.extCall Event.recordSession (fun fs => fs.setFile recording_path FileData.castData)

/-- `singularity run <sif>`: external execution, no filesystem effect. -/
def singularity_run (w : World) (sif_path : Path) : World × Except Err Unit :=
  let _ := sif_path
  w.extCall Event.runImage (fun fs => fs)

/-- The asciinema player: open the capture file (error when missing) and
replay it externally. -/
def play_recording (w : World) (cast_filename : Path) : World × Except Err Unit :=
  if !(w.fs.isFile cast_filename) then (w, .error .fileNotFound)
  else w.extCall Event.playRecording (fun fs => fs)

/-- `cmd_create(args)`: derive the version and package manager, resolve the
container path, allocate the version directory (duplicate is fatal), then
drive the build pipeline: sandbox, interactive recording, image conversion,
cleanup. The environment root is taken as already resolved
(`get_default_environment_path` is the external platformdirs lookup). -/
def cmd_create (name base version package_manager : String) (env : Path) (w : World) :
    World × Except Err Unit :=
  let version := if version == "" then generate_version w else version
  match (if package_manager == "" then
           (let pm := get_package_manager base
            if pm == "unknown" then Except.error Err.unknownPackageManager
            else Except.ok pm)
         else Except.ok package_manager) with
  | .error e => (w, .error e)
  | .ok package_manager =>
    match get_container_path w env name with
    | (w1, .error e) => (w1, .error e)
    | (w1, .ok container_path) =>
      match get_container_version_path w1.fs container_path version true with
      | (fs, .error e) => ({ w1 with fs := fs }, .error e)
      | (fs, .ok (version_path, exists2)) =>
        let w2 := { w1 with fs := fs }
        if exists2 then (w2, .error .duplicateVersion)
        else
          match build_container_sandbox w2 env package_manager base with
          | (w3, .error e) => (w3, .error e)
          | (w3, .ok (temp_dir, sandbox)) =>
            let recording_path := get_container_recording_path version_path
            match record_asciicast w3 recording_path with
            | (w4, .error e) => (w4, .error e)
            | (w4, .ok ()) =>
              match convert_container_to_sif w4 version_path sandbox with
              | (w5, .error e) => (w5, .error e)
              | (w5, .ok ()) => cleanup_temporary_path w5 temp_dir

/-- `cmd_run(args)`: resolve the container path, resolve the version path
(with the default `mkdir=True`!), fail with the version-not-found error when
it did not already exist, otherwise run the image externally. -/
def cmd_run (name version : String) (env : Path) (w : World) : World × Except Err Unit :=
  match get_container_path w env name with
  | (w1, .error e) => (w1, .error e)
  | (w1, .ok container_path) =>
    match get_container_version_path w1.fs container_path version true with
    | (fs, .error e) => ({ w1 with fs := fs }, .error e)
    | (fs, .ok (version_path, exists2)) =>
      let w2 := { w1 with fs := fs }
      if !exists2 then (w2, .error .versionNotFound)
      else
        let sif_path := version_path ++ ["container.sif"]
        singularity_run w2 sif_path

/-- The printing loop of `cmd_list`: for each registered container, list its
children and print `name child` for each child whose directory holds a
`container.sif`. Returns the printed lines and the first error, if any;
lines printed before an error are kept, as on a terminal. -/
def listContainers (fs : FS) : List (String × Path) → List (String × String) × Option Err
  | [] => ([], none)
  | (container, container_path) :: rest =>
    match fs.listdir container_path with
    | .error e => ([], some e)
    | .ok children =>
      let lines :=
        (children.filter
          (fun child => fs.pathExists (container_path ++ [child, "container.sif"]))).map
          (fun child => (container, child))
      (lines ++ (listContainers fs rest).1, (listContainers fs rest).2)

/-- `cmd_list(args)`: load the registry and print the built versions of every
registered container. -/
def cmd_list (env : Path) (w : World) : World × List (String × String) × Option Err :=
  match load_registry w.fs env with
  | (fs, .error e) => ({ w with fs := fs }, [], some e)
  | (fs, .ok registry) =>
    match listContainers fs registry.containers with
    | (out, err) => ({ w with fs := fs }, out, err)

/-- `cmd_replay(args)`: resolve the container path, resolve the version path
with `mkdir=False`, fail with the version-not-found error when it does not
exist, otherwise hand the recording to the external player. -/
def cmd_replay (name version : String) (env : Path) (w : World) : World × Except Err Unit :=
  match get_container_path w env name with
  | (w1, .error e) => (w1, .error e)
  | (w1, .ok container_path) =>
    match get_container_version_path w1.fs container_path version false with
    | (fs, .error e) => ({ w1 with fs := fs }, .error e)
    | (fs, .ok (version_path, exists2)) =>
      let w2 := { w1 with fs := fs }
      if !exists2 then (w2, .error .versionNotFound)
      else
        let cast_filename := get_container_recording_path version_path
        play_recording w2 cast_filename

/-- The four lifecycle subcommands, for statements quantifying over every
operation of the program. -/
inductive Cmd where
  | create (name base version pkg : String)
  | run (name version : String)
  | list
  | replay (name version : String)

/-- Dispatch a subcommand against an environment root. -/
def runCmd (c : Cmd) (env : Path) (w : World) : World × Except Err Unit :=
  match c with
  | .create name base version pkg => cmd_create name base version pkg env w
  | .run name version => cmd_run name version env w
  | .list =>
    match cmd_list env w with
    | (w1, _, some e) => (w1, .error e)
    | (w1, _, none) => (w1, .ok ())
  | .replay name version => cmd_replay name version env w

/-- A name is registered in the persisted registry of `env`. -/
def registeredIn (fs : FS) (env : Path) (name : String) : Bool :=
  match fs.files.lookup (registryPath env) with
  | some (FileData.registryData r) => (r.containers.lookup name).isSome
  | _ => false

/-- The registry invariant: every container registered in the persisted
record of `env` maps to a directory that exists on disk. -/
def registryInvB (fs : FS) (env : Path) : Bool :=
  match fs.files.lookup (registryPath env) with
  | some (FileData.registryData r) => r.containers.all (fun nc => fs.isDirB nc.2)
  | _ => true

/-! ### Basic lemmas about paths and association-list lookups -/

theorem leadsTo_iff {p q : Path} : leadsTo p q = true ↔ ∃ t, q = p ++ t := by
  induction p generalizing q with
  | nil => simp [leadsTo]
  | cons a as ih =>
    cases q with
    | nil => simp [leadsTo]
    | cons b bs =>
      simp only [leadsTo, Bool.and_eq_true, beq_iff_eq, ih, List.cons_append,
        List.cons.injEq]
      constructor
      · rintro ⟨rfl, t, rfl⟩
        exact ⟨t, rfl, rfl⟩
      · rintro ⟨t, rfl, rfl⟩
        exact ⟨rfl, t, rfl⟩

theorem leadsTo_length_le {p q : Path} (h : leadsTo p q = true) : p.length ≤ q.length := by
  obtain ⟨t, rfl⟩ := leadsTo_iff.mp h
  simp

theorem leadsTo_eq_false_of_lt {p q : Path} (h : q.length < p.length) :
    leadsTo p q = false := by
  cases hpq : leadsTo p q with
  | false => rfl
  | true => exact absurd (leadsTo_length_le hpq) (by omega)

theorem leadsTo_refl (p : Path) : leadsTo p p = true :=
  leadsTo_iff.mpr ⟨[], by simp⟩

theorem leadsTo_append (p t : Path) : leadsTo p (p ++ t) = true :=
  leadsTo_iff.mpr ⟨t, rfl⟩

theorem lookup_cons {α β : Type} [BEq α] (k k1 : α) (v : β) (l : List (α × β)) :
    List.lookup k ((k1, v) :: l) = if k == k1 then some v else List.lookup k l := by
  cases h : k == k1 <;> simp [List.lookup, h]

theorem lookup_append_of_none {α β : Type} [BEq α] (k : α) (l₁ l₂ : List (α × β))
    (h : List.lookup k l₁ = none) :
    List.lookup k (l₁ ++ l₂) = List.lookup k l₂ := by
  induction l₁ with
  | nil => rfl
  | cons a l ih =>
    obtain ⟨k1, v⟩ := a
    rw [List.cons_append, lookup_cons]
    rw [lookup_cons] at h
    cases hk : (k == k1) with
    | false => simp only [hk] at h ⊢; simp at h ⊢; exact ih h
    | true => simp [hk] at h

theorem lookup_eq_some_of_mem_nodup {α β : Type} [BEq α] [LawfulBEq α]
    {k : α} {v : β} {l : List (α × β)} (hmem : (k, v) ∈ l)
    (hnd : (l.map Prod.fst).Nodup) : List.lookup k l = some v := by
  induction l with
  | nil => simp at hmem
  | cons a l ih =>
    obtain ⟨k1, v1⟩ := a
    simp only [List.map_cons, List.nodup_cons] at hnd
    rw [lookup_cons]
    rcases List.mem_cons.mp hmem with h | h
    · rw [Prod.mk.injEq] at h
      obtain ⟨rfl, rfl⟩ := h
      simp
    · cases hk : (k == k1) with
      | false => simpa [hk] using ih h hnd.2
      | true =>
        exfalso
        have hkk : k = k1 := by simpa using hk
        exact hnd.1 (hkk ▸ List.mem_map_of_mem Prod.fst h)

theorem lookup_mem {α β : Type} [BEq α] {k : α} {v : β} {l : List (α × β)}
    (h : List.lookup k l = some v) : ∃ k2, (k2, v) ∈ l := by
  induction l with
  | nil => simp [List.lookup] at h
  | cons a l ih =>
    obtain ⟨k1, v1⟩ := a
    rw [lookup_cons] at h
    cases hk : (k == k1) with
    | false =>
      simp only [hk] at h
      simp at h
      obtain ⟨k2, hk2⟩ := ih h
      exact ⟨k2, List.mem_cons_of_mem _ hk2⟩
    | true =>
      simp only [hk, if_pos rfl] at h
      simp at h
      exact ⟨k1, by rw [h]; exact List.mem_cons_self _ _⟩

theorem lookup_filter_keyne {α β : Type} [BEq α] [LawfulBEq α] (k : α)
    (pred : α → Bool) (l : List (α × β)) (h : pred k = false) :
    List.lookup k (l.filter (fun e => !(pred e.1))) = List.lookup k l := by
  induction l with
  | nil => rfl
  | cons a l ih =>
    obtain ⟨k1, v1⟩ := a
    by_cases hka : k = k1
    · subst hka
      rw [List.filter_cons]
      simp only [h, Bool.not_false, if_pos trivial, lookup_cons]
      simp
    · have hkb : (k == k1) = false := by simpa using hka
      rw [List.filter_cons]
      cases hp : pred (k1, v1).1 with
      | false =>
        simp only [hp, Bool.not_false, if_pos trivial, lookup_cons]
        simp [hkb, ih]
      | true =>
        simp only [hp, Bool.not_true, lookup_cons]
        simp [hkb, ih]

/-! ### Lemmas about the filesystem primitives -/

theorem containsMem {α : Type} [BEq α] [LawfulBEq α] {l : List α} {a : α} :
    l.contains a = true ↔ a ∈ l :=
  List.elem_iff

namespace FS

theorem isFile_of_lookup {fs : FS} {p : Path} {d : FileData}
    (h : fs.files.lookup p = some d) : fs.isFile p = true := by
  simp [isFile, h]

theorem pathExists_of_lookup {fs : FS} {p : Path} {d : FileData}
    (h : fs.files.lookup p = some d) : fs.pathExists p = true := by
  simp [pathExists, isFile_of_lookup h]

theorem isFile_eq_false_of_lookup_none {fs : FS} {p : Path}
    (h : fs.files.lookup p = none) : fs.isFile p = false := by
  simp [isFile, h]

theorem setFile_dirs (fs : FS) (p : Path) (d : FileData) :
    (fs.setFile p d).dirs = fs.dirs := rfl

theorem setFile_lookup (fs : FS) (p : Path) (d : FileData) (q : Path) :
    (fs.setFile p d).files.lookup q =
      if q = p then some d else fs.files.lookup q := by
  unfold setFile
  by_cases hqp : q = p
  · subst hqp
    rw [lookup_cons]
    simp
  · have hb : (q == p) = false := by simpa using hqp
    rw [lookup_cons, if_neg hqp, if_neg (by simp [hb])]
    exact lookup_filter_keyne q (fun k => k == p) fs.files hb

theorem addDir_files (fs : FS) (p : Path) : (fs.addDir p).files = fs.files := rfl

theorem isDirB_addDir (fs : FS) (p q : Path) :
    (fs.addDir p).isDirB q = (decide (q = p) || fs.isDirB q) := by
  cases hq : q.isEmpty <;>
    simp [isDirB, addDir, hq, List.contains_cons, Bool.or_comm, Bool.or_left_comm]

theorem isDirB_mono_addDir {fs : FS} {q : Path} (p : Path)
    (h : fs.isDirB q = true) : (fs.addDir p).isDirB q = true := by
  rw [isDirB_addDir, h, Bool.or_true]

theorem mem_dirs_addDir {fs : FS} {q : Path} (p : Path)
    (h : q ∈ fs.dirs) : q ∈ (fs.addDir p).dirs :=
  List.mem_cons_of_mem _ h

theorem rmrf_lookup {fs : FS} {p q : Path} (h : leadsTo p q = false) :
    (fs.rmrf p).files.lookup q = fs.files.lookup q :=
  lookup_filter_keyne q (fun k => leadsTo p k) fs.files h

theorem rmrf_mem_dirs {fs : FS} {p d : Path} (hd : d ∈ fs.dirs)
    (h : leadsTo p d = false) : d ∈ (fs.rmrf p).dirs := by
  simp only [rmrf, List.mem_filter]
  exact ⟨hd, by simp [h]⟩

theorem isDirB_rmrf {fs : FS} {p d : Path} (hd : fs.isDirB d = true)
    (h : leadsTo p d = false) : (fs.rmrf p).isDirB d = true := by
  by_cases hde : d.isEmpty
  · simp [isDirB, hde]
  · simp only [isDirB, hde, Bool.false_or, containsMem] at hd ⊢
    exact rmrf_mem_dirs hd h

/-- The well-formedness predicate, spelled out. -/
theorem wfB_iff {fs : FS} :
    fs.wfB = true ↔ ∀ d ∈ fs.dirs, d ≠ [] ∧ fs.isDirB d.dropLast = true := by
  simp only [wfB, List.all_eq_true, Bool.and_eq_true, Bool.not_eq_true',
    List.isEmpty_eq_false]

theorem wfB_addDir {fs : FS} {p : Path} (hwf : fs.wfB = true) (hp : p ≠ [])
    (hpar : fs.isDirB p.dropLast = true) : (fs.addDir p).wfB = true := by
  rw [wfB_iff] at hwf ⊢
  intro d hd
  rcases List.mem_cons.mp hd with rfl | hd
  · exact ⟨hp, isDirB_mono_addDir _ hpar⟩
  · obtain ⟨h1, h2⟩ := hwf d hd
    exact ⟨h1, isDirB_mono_addDir _ h2⟩

/-- In a well-formed filesystem, every nonempty initial segment of an
existing directory is itself an existing directory. -/
theorem wf_ancestor {fs : FS} (hwf : fs.wfB = true) :
    ∀ t q d, d ∈ fs.dirs → q ≠ [] → d = q ++ t → q ∈ fs.dirs := by
  intro t
  induction t using List.reverseRecOn with
  | nil =>
    intro q d hd _ hqd
    rw [List.append_nil] at hqd
    exact hqd ▸ hd
  | append_singleton t0 a ih =>
    intro q d hd hq hqd
    obtain ⟨-, hpar⟩ := wfB_iff.mp hwf d hd
    rw [hqd, ← List.append_assoc, List.dropLast_concat] at hpar
    by_cases hqt : q ++ t0 = []
    · exact absurd (List.append_eq_nil.mp hqt).1 hq
    · have hie : (q ++ t0).isEmpty = false := List.isEmpty_eq_false.mpr hqt
      simp only [isDirB, hie, Bool.false_or, containsMem] at hpar
      exact ih q (q ++ t0) hpar hq rfl

theorem ensureDirFrom_files (fs : FS) (pre : Path) (cs : List String) :
    (fs.ensureDirFrom pre cs).1.files = fs.files := by
  induction cs generalizing fs pre with
  | nil => rfl
  | cons c rest ih =>
    unfold ensureDirFrom
    by_cases h1 : fs.isFile (pre ++ [c]) = true
    · simp [h1]
    · simp only [Bool.not_eq_true] at h1
      by_cases h2 : fs.isDirB (pre ++ [c]) = true
      · simp [h1, h2, ih]
      · simp only [Bool.not_eq_true] at h2
        simp [h1, h2, ih, addDir_files]

theorem ensureDirFrom_keepsDirs (fs : FS) (pre : Path) (cs : List String) :
    ∀ d ∈ fs.dirs, d ∈ (fs.ensureDirFrom pre cs).1.dirs := by
  induction cs generalizing fs pre with
  | nil => intro d hd; exact hd
  | cons c rest ih =>
    intro d hd
    unfold ensureDirFrom
    by_cases h1 : fs.isFile (pre ++ [c]) = true
    · simp only [h1, if_pos trivial]
      exact hd
    · simp only [Bool.not_eq_true] at h1
      by_cases h2 : fs.isDirB (pre ++ [c]) = true
      · simp [h1, h2]
        exact ih fs _ d hd
      · simp only [Bool.not_eq_true] at h2
        simp [h1, h2]
        exact ih _ _ d (mem_dirs_addDir _ hd)

theorem ensureDirFrom_isDirB_mono {fs : FS} {q : Path} (pre : Path)
    (cs : List String) (h : fs.isDirB q = true) :
    (fs.ensureDirFrom pre cs).1.isDirB q = true := by
  by_cases hq : q.isEmpty
  · simp [isDirB, hq]
  · simp only [isDirB, hq, Bool.false_or, containsMem] at h ⊢
    exact ensureDirFrom_keepsDirs fs pre cs q h

theorem ensureDirFrom_ok_isDirB {fs fs2 : FS} {pre : Path} {cs : List String}
    (hpre : fs.isDirB pre = true)
    (h : fs.ensureDirFrom pre cs = (fs2, .ok ())) :
    fs2.isDirB (pre ++ cs) = true := by
  induction cs generalizing fs pre with
  | nil =>
    unfold ensureDirFrom at h
    rw [Prod.mk.injEq] at h
    obtain ⟨rfl, -⟩ := h
    simpa using hpre
  | cons c rest ih =>
    unfold ensureDirFrom at h
    by_cases h1 : fs.isFile (pre ++ [c]) = true
    · simp [h1] at h
    · simp only [Bool.not_eq_true] at h1
      by_cases h2 : fs.isDirB (pre ++ [c]) = true
      · simp only [h1, h2, Bool.false_eq_true, if_false, if_true] at h
        have := ih h2 h
        simpa using this
      · simp only [Bool.not_eq_true] at h2
        simp only [h1, h2, Bool.false_eq_true, if_false] at h
        have hstep : (fs.addDir (pre ++ [c])).isDirB (pre ++ [c]) = true := by
          rw [isDirB_addDir]
          simp
        have := ih hstep h
        simpa using this

theorem ensureDirFrom_wf {fs : FS} (pre : Path) (cs : List String)
    (hwf : fs.wfB = true) (hpre : fs.isDirB pre = true) :
    (fs.ensureDirFrom pre cs).1.wfB = true := by
  induction cs generalizing fs pre with
  | nil => exact hwf
  | cons c rest ih =>
    unfold ensureDirFrom
    by_cases h1 : fs.isFile (pre ++ [c]) = true
    · simp only [h1, if_pos trivial]
      exact hwf
    · simp only [Bool.not_eq_true] at h1
      by_cases h2 : fs.isDirB (pre ++ [c]) = true
      · simp [h1, h2]
        exact ih (pre ++ [c]) hwf h2
      · simp only [Bool.not_eq_true] at h2
        simp [h1, h2]
        have hq : (pre ++ [c]) ≠ [] := by simp
        have hpar : fs.isDirB (pre ++ [c]).dropLast = true := by
          rw [List.dropLast_concat]
          exact hpre
        have hwf2 := wfB_addDir hwf hq hpar
        have hpre2 : (fs.addDir (pre ++ [c])).isDirB (pre ++ [c]) = true := by
          rw [isDirB_addDir]
          simp
        exact ih _ hwf2 hpre2

theorem isDirB_nil (fs : FS) : fs.isDirB [] = true := by
  simp [isDirB]

theorem makedirs_files (fs : FS) (p : Path) (b : Bool) :
    (fs.makedirs p b).1.files = fs.files := by
  unfold makedirs
  by_cases h : (fs.pathExists p && !b) = true
  · simp [h]
  · simp only [Bool.not_eq_true] at h
    simp [h, ensureDir, ensureDirFrom_files]

theorem makedirs_keepsDirs (fs : FS) (p : Path) (b : Bool) :
    ∀ d ∈ fs.dirs, d ∈ (fs.makedirs p b).1.dirs := by
  unfold makedirs
  by_cases h : (fs.pathExists p && !b) = true
  · simp only [h, if_pos trivial]
    intro d hd; exact hd
  · simp only [Bool.not_eq_true] at h
    simp only [h, Bool.false_eq_true, if_false]
    exact ensureDirFrom_keepsDirs fs [] p

theorem makedirs_isDirB_mono {fs : FS} {q : Path} (p : Path) (b : Bool)
    (h : fs.isDirB q = true) : (fs.makedirs p b).1.isDirB q = true := by
  by_cases hq : q.isEmpty
  · simp [isDirB, hq]
  · simp only [isDirB, hq, Bool.false_or, containsMem] at h ⊢
    exact makedirs_keepsDirs fs p b q h

theorem makedirs_wf {fs : FS} (p : Path) (b : Bool) (hwf : fs.wfB = true) :
    (fs.makedirs p b).1.wfB = true := by
  unfold makedirs
  by_cases h : (fs.pathExists p && !b) = true
  · simp [h, hwf]
  · simp only [Bool.not_eq_true] at h
    simp only [h, Bool.false_eq_true, if_false]
    exact ensureDirFrom_wf [] p hwf (isDirB_nil fs)

theorem makedirs_ok_isDirB {fs fs2 : FS} {p : Path} {b : Bool}
    (h : fs.makedirs p b = (fs2, .ok ())) : fs2.isDirB p = true := by
  unfold makedirs at h
  by_cases hc : (fs.pathExists p && !b) = true
  · simp [hc] at h
  · simp only [Bool.not_eq_true] at hc
    simp only [hc, Bool.false_eq_true, if_false] at h
    have := ensureDirFrom_ok_isDirB (isDirB_nil fs) h
    simpa using this

theorem makedirs_ok_not_exists {fs fs2 : FS} {p : Path}
    (h : fs.makedirs p false = (fs2, .ok ())) : fs.pathExists p = false := by
  unfold makedirs at h
  by_cases hc : fs.pathExists p = true
  · simp [hc] at h
  · simpa using hc

theorem mkdir_ok {fs fs2 : FS} {p : Path} (h : fs.mkdir p = (fs2, .ok ())) :
    fs2 = fs.addDir p ∧ fs.pathExists p = false ∧ fs.isDirB p.dropLast = true := by
  unfold mkdir at h
  by_cases h1 : fs.pathExists p = true
  · simp [h1] at h
  · simp only [Bool.not_eq_true] at h1
    by_cases h2 : fs.isDirB p.dropLast = true
    · simp only [h1, h2, Bool.false_eq_true, if_false, Bool.not_true,
        Bool.false_eq_true, if_false] at h
      rw [Prod.mk.injEq] at h
      exact ⟨h.1.symm, h1, h2⟩
    · simp only [Bool.not_eq_true] at h2
      simp [h1, h2] at h

theorem writeFile_dirs (fs : FS) (p : Path) (d : FileData) :
    (fs.writeFile p d).1.dirs = fs.dirs := by
  unfold writeFile
  by_cases h1 : fs.isDirB p = true
  · simp [h1]
  · simp only [Bool.not_eq_true] at h1
    by_cases h2 : fs.isDirB p.dropLast = true
    · simp [h1, h2, setFile_dirs]
    · simp only [Bool.not_eq_true] at h2
      simp [h1, h2]

theorem writeFile_ok {fs fs2 : FS} {p : Path} {d : FileData}
    (h : fs.writeFile p d = (fs2, .ok ())) : fs2 = fs.setFile p d := by
  unfold writeFile at h
  by_cases h1 : fs.isDirB p = true
  · simp [h1] at h
  · simp only [Bool.not_eq_true] at h1
    by_cases h2 : fs.isDirB p.dropLast = true
    · simp only [h1, h2, Bool.false_eq_true, if_false, Bool.not_true,
        Bool.false_eq_true, if_false] at h
      rw [Prod.mk.injEq] at h
      exact h.1.symm
    · simp only [Bool.not_eq_true] at h2
      simp [h1, h2] at h

theorem wfB_of_dirs_eq {fs fs2 : FS} (h : fs2.dirs = fs.dirs)
    (hwf : fs.wfB = true) : fs2.wfB = true := by
  rw [wfB_iff] at hwf ⊢
  intro d hd
  rw [h] at hd
  obtain ⟨h1, h2⟩ := hwf d hd
  refine ⟨h1, ?_⟩
  simpa [isDirB, h] using h2

theorem isDirB_of_dirs_eq {fs fs2 : FS} {q : Path} (h : fs2.dirs = fs.dirs)
    (hq : fs.isDirB q = true) : fs2.isDirB q = true := by
  simpa [isDirB, h] using hq

end FS

/-! ### Characterizations of the registry operations -/

theorem registryPath_dropLast (env : Path) : (registryPath env).dropLast = env :=
  List.dropLast_concat

/-- When the registry file is present and parseable, loading reads it with no
filesystem change. -/
theorem load_registry_of_file {fs : FS} {env : Path} {r : Registry}
    (h : fs.files.lookup (registryPath env) = some (FileData.registryData r)) :
    load_registry fs env = (fs, .ok r) := by
  simp [load_registry, FS.pathExists_of_lookup h, FS.readJson, h]

/-- When a name is registered in the present, parseable registry file,
container-path resolution returns the stored path and changes nothing. -/
theorem get_container_path_found {w : World} {env : Path} {name : String}
    {r : Registry} {p : Path}
    (hfile : w.fs.files.lookup (registryPath env) = some (FileData.registryData r))
    (hname : r.containers.lookup name = some p) :
    get_container_path w env name = (w, .ok p) := by
  unfold get_container_path
  rw [load_registry_of_file hfile]
  simp [hname]

/-- Version-path resolution with `mkdir=False` on an absent version directory:
no filesystem change, `existed = False`. -/
theorem gcvp_not_exists_nomkdir {fs : FS} {cp : Path} {version : String}
    (h : fs.pathExists (cp ++ [version]) = false) :
    get_container_version_path fs cp version false
      = (fs, .ok (cp ++ [version], false)) := by
  unfold get_container_version_path
  simp [h]

/-- Version-path resolution with `mkdir=True` on an absent version directory
whose container directory exists: the version directory is created,
`existed = False`. -/
theorem gcvp_not_exists_mkdir {fs : FS} {cp : Path} {version : String}
    (h : fs.pathExists (cp ++ [version]) = false) (hpar : fs.isDirB cp = true) :
    get_container_version_path fs cp version true
      = (fs.addDir (cp ++ [version]), .ok (cp ++ [version], false)) := by
  simp [get_container_version_path, h, FS.mkdir, List.dropLast_concat, hpar]

/-- Version-path resolution on an existing version directory: no change,
`existed = True`. -/
theorem gcvp_exists {fs : FS} {cp : Path} {version : String} (b : Bool)
    (h : fs.pathExists (cp ++ [version]) = true) :
    get_container_version_path fs cp version b = (fs, .ok (cp ++ [version], true)) := by
  unfold get_container_version_path
  simp [h]

/-! ### Sample worlds for concrete runs -/

/-- A fixed identifier stream standing in for `uuid.uuid4()`. -/
def sampleIds : Nat → String := fun n => "id" ++ Nat.repr n

/-- An oracle under which every external invocation succeeds. -/
def extAllOk : Nat → Bool := fun _ => true

/-- A world over an empty filesystem. -/
def emptyWorld : World :=
  { fs := { dirs := [], files := [] }, idStream := sampleIds, idCount := 0,
    ext := extAllOk, extCount := 0, clock := "20240101_0000", trace := [] }

/-- A world where container `n` is registered at `e/c`, the version directory
`v` exists, but no `container.sif` was ever produced. -/
def regWorldNoSif : World :=
  { emptyWorld with fs :=
    { dirs := [["e"], ["e", "c"], ["e", "c", "v"]],
      files := [(["e", "registry.json"],
                 FileData.registryData { version := 1, containers := [("n", ["e", "c"])] })] } }

/-- A world where container `n` is registered at `e/c` and no version
directory exists. -/
def regWorldEmpty : World :=
  { emptyWorld with fs :=
    { dirs := [["e"], ["e", "c"]],
      files := [(["e", "registry.json"],
                 FileData.registryData { version := 1, containers := [("n", ["e", "c"])] })] } }

/-! ### Claim C1 -/

/-- Claim C1 as stated is false: `replay` on a container name that was never
built does create a directory. On an empty environment, replaying the unknown
name `n` fails with the version-not-found error, yet the call has created the
environment directory and a fresh container directory `e/id0`, and has
persisted a registry entry for `n` — the directory tree and registry are not
as they were before. -/
theorem C1_counterexample :
    (cmd_replay "n" "v" ["e"] emptyWorld).2 = Except.error Err.versionNotFound ∧
    emptyWorld.fs.dirs = [] ∧
    (cmd_replay "n" "v" ["e"] emptyWorld).1.fs.dirs = [["e", "id0"], ["e"]] ∧
    emptyWorld.fs.files.lookup (registryPath ["e"]) = none ∧
    (cmd_replay "n" "v" ["e"] emptyWorld).1.fs.files.lookup (registryPath ["e"])
      = some (FileData.registryData
          { version := 1, containers := [("n", ["e", "id0"])] }) :=
  ⟨rfl, rfl, rfl, rfl, rfl⟩

/-- Claim C1 (amended): for a container name that is registered in the
persisted registry and a version whose directory does not exist, `replay`
fails with the version-not-found error and the world — directory tree,
registry, traces and counters — is exactly as before the call. -/
theorem C1_replay_registered (w : World) (name version : String) (env : Path)
    (r : Registry) (p : Path)
    (hfile : w.fs.files.lookup (registryPath env) = some (FileData.registryData r))
    (hname : r.containers.lookup name = some p)
    (hver : w.fs.pathExists (p ++ [version]) = false) :
    cmd_replay name version env w = (w, Except.error Err.versionNotFound) := by
  unfold cmd_replay
  rw [get_container_path_found hfile hname]
  simp only [gcvp_not_exists_nomkdir hver]
  rfl

/-- Witness for C1 at a concrete world. -/
theorem C1_witness :
    regWorldEmpty.fs.pathExists (["e", "c"] ++ ["v"]) = false ∧
    cmd_replay "n" "v" ["e"] regWorldEmpty
      = (regWorldEmpty, Except.error Err.versionNotFound) :=
  ⟨rfl, C1_replay_registered regWorldEmpty "n" "v" ["e"]
    { version := 1, containers := [("n", ["e", "c"])] } ["e", "c"] rfl rfl rfl⟩

/-! ### Claim C2 -/

/-- Claim C2 as stated is false: `run` never checks for `container.sif`. In a
world where the version directory exists but holds no image, `cmd_run`
delegates to the external run facility (the `runImage` event is traced) and
returns success rather than failing with the version-not-found error. -/
theorem C2_counterexample :
    regWorldNoSif.fs.isFile ["e", "c", "v", "container.sif"] = false ∧
    (cmd_run "n" "v" ["e"] regWorldNoSif).2 = Except.ok () ∧
    (cmd_run "n" "v" ["e"] regWorldNoSif).1.trace = [Event.runImage] :=
  ⟨rfl, rfl, rfl⟩

/-- Claim C2 (amended): for a registered container, `run` fails with the
version-not-found error exactly when the version directory is missing (and
then creates that directory as a side effect); whenever the version directory
exists it delegates to the external run facility regardless of whether
`container.sif` is present. -/
theorem C2_run_version_dir (name version : String) (env : Path) (w : World)
    (r : Registry) (p : Path)
    (hfile : w.fs.files.lookup (registryPath env) = some (FileData.registryData r))
    (hname : r.containers.lookup name = some p) :
    (w.fs.pathExists (p ++ [version]) = true →
      cmd_run name version env w =
        ({ w with extCount := w.extCount + 1, trace := w.trace ++ [Event.runImage] },
         if w.ext w.extCount then Except.ok () else Except.error Err.externalToolFailure)) ∧
    (w.fs.pathExists (p ++ [version]) = false → w.fs.isDirB p = true →
      cmd_run name version env w =
        ({ w with fs := w.fs.addDir (p ++ [version]) },
         Except.error Err.versionNotFound)) := by
  constructor
  · intro hver
    unfold cmd_run
    rw [get_container_path_found hfile hname]
    simp only [gcvp_exists true hver]
    unfold singularity_run World.extCall
    cases hg : w.ext w.extCount <;> simp [hg]
  · intro hver hpdir
    unfold cmd_run
    rw [get_container_path_found hfile hname]
    simp only [gcvp_not_exists_mkdir hver hpdir]
    rfl

/-- Witness for C2 at a concrete world. -/
theorem C2_witness :
    regWorldNoSif.fs.pathExists (["e", "c"] ++ ["v"]) = true ∧
    cmd_run "n" "v" ["e"] regWorldNoSif =
      ({ regWorldNoSif with
          extCount := regWorldNoSif.extCount + 1,
          trace := regWorldNoSif.trace ++ [Event.runImage] },
       if regWorldNoSif.ext regWorldNoSif.extCount then Except.ok ()
       else Except.error Err.externalToolFailure) :=
  ⟨rfl, (C2_run_version_dir "n" "v" ["e"] regWorldNoSif
    { version := 1, containers := [("n", ["e", "c"])] } ["e", "c"] rfl rfl).1 rfl⟩

/-! ### Claim C3 -/

/-- Claim C3: the code contradicts it. `load_registry` calls `os.makedirs` on
the parent directory without `exist_ok`, so on any environment root whose
directory already exists while `registry.json` is absent (for example after a
previous `load_registry` that created the directory but never saved), it
raises `FileExistsError` instead of returning a fresh record — and thus also
fails in a case where the file neither exists nor is unparseable. The fresh
record is returned only when the environment directory is itself absent. -/
theorem C3_load_registry_absent :
    load_registry { dirs := [["e"]], files := [] } ["e"]
      = ({ dirs := [["e"]], files := [] }, Except.error Err.fileExists) ∧
    load_registry { dirs := [], files := [] } ["e"]
      = ({ dirs := [["e"]], files := [] },
         Except.ok { version := REGISTRY_VERSION, containers := [] }) :=
  ⟨rfl, rfl⟩

/-! ### Claim C4 -/

/-- When the name is registered in the persisted registry and the version
directory already exists, `cmd_create` stops at the duplicate check with no
change at all, provided its earlier pure stages pass (a nonempty version and
a package manager that is either explicit or detectable). -/
theorem cmd_create_duplicate {name base version pkg : String} {env : Path}
    {w : World} {r : Registry} {p : Path}
    (hfile : w.fs.files.lookup (registryPath env) = some (FileData.registryData r))
    (hname : r.containers.lookup name = some p)
    (hver : w.fs.pathExists (p ++ [version]) = true)
    (hv : version ≠ "")
    (hpm : pkg ≠ "" ∨ get_package_manager base ≠ "unknown") :
    cmd_create name base version pkg env w = (w, Except.error Err.duplicateVersion) := by
  have hvb : (version == "") = false := by simpa using hv
  unfold cmd_create
  simp only [hvb, Bool.false_eq_true, if_false]
  by_cases hpkg : pkg = ""
  · have hdet : get_package_manager base ≠ "unknown" := by
      rcases hpm with h | h
      · exact absurd hpkg h
      · exact h
    have hdetb : (get_package_manager base == "unknown") = false := by simpa using hdet
    subst hpkg
    simp only [beq_self_eq_true, if_pos trivial, hdetb, Bool.false_eq_true, if_false]
    rw [get_container_path_found hfile hname]
    simp only [gcvp_exists true hver]
    rfl
  · have hpkgb : (pkg == "") = false := by simpa using hpkg
    simp only [hpkgb, Bool.false_eq_true, if_false]
    rw [get_container_path_found hfile hname]
    simp only [gcvp_exists true hver]
    rfl

/-- Claim C4: for a registered container whose version directory is absent,
`cmd_run` raises the version-not-found error but has already created the
empty version directory (`get_container_version_path` defaults to
`mkdir=True`), so a subsequent `cmd_create` of the same name and version
fails with the duplicate-version error even though no build ever ran. -/
theorem C4_run_then_create (name base version pkg : String) (env : Path)
    (w : World) (r : Registry) (p : Path)
    (hfile : w.fs.files.lookup (registryPath env) = some (FileData.registryData r))
    (hname : r.containers.lookup name = some p)
    (hpdir : w.fs.isDirB p = true)
    (hver : w.fs.pathExists (p ++ [version]) = false)
    (hv : version ≠ "")
    (hpm : pkg ≠ "" ∨ get_package_manager base ≠ "unknown") :
    cmd_run name version env w
      = ({ w with fs := w.fs.addDir (p ++ [version]) },
         Except.error Err.versionNotFound) ∧
    cmd_create name base version pkg env ({ w with fs := w.fs.addDir (p ++ [version]) })
      = ({ w with fs := w.fs.addDir (p ++ [version]) },
         Except.error Err.duplicateVersion) := by
  refine ⟨(C2_run_version_dir name version env w r p hfile hname).2 hver hpdir, ?_⟩
  have hfile2 : (w.fs.addDir (p ++ [version])).files.lookup (registryPath env)
      = some (FileData.registryData r) := by
    rw [FS.addDir_files]
    exact hfile
  have hver2 : (w.fs.addDir (p ++ [version])).pathExists (p ++ [version]) = true := by
    unfold FS.pathExists
    rw [FS.isDirB_addDir]
    simp
  exact @cmd_create_duplicate name base version pkg env
    { w with fs := w.fs.addDir (p ++ [version]) } r p hfile2 hname hver2 hv hpm

/-- Witness for C4 at a concrete world. -/
theorem C4_witness :
    regWorldEmpty.fs.pathExists (["e", "c"] ++ ["v"]) = false ∧
    cmd_run "n" "v" ["e"] regWorldEmpty
      = ({ regWorldEmpty with fs := regWorldEmpty.fs.addDir (["e", "c"] ++ ["v"]) },
         Except.error Err.versionNotFound) ∧
    cmd_create "n" "ubuntu:22.04" "v" "" ["e"]
        ({ regWorldEmpty with fs := regWorldEmpty.fs.addDir (["e", "c"] ++ ["v"]) })
      = ({ regWorldEmpty with fs := regWorldEmpty.fs.addDir (["e", "c"] ++ ["v"]) },
         Except.error Err.duplicateVersion) :=
  ⟨rfl,
   (C4_run_then_create "n" "ubuntu:22.04" "v" "" ["e"] regWorldEmpty
     { version := 1, containers := [("n", ["e", "c"])] } ["e", "c"]
     rfl rfl rfl rfl (by simp) (Or.inr (by decide))).1,
   (C4_run_then_create "n" "ubuntu:22.04" "v" "" ["e"] regWorldEmpty
     { version := 1, containers := [("n", ["e", "c"])] } ["e", "c"]
     rfl rfl rfl rfl (by simp) (Or.inr (by decide))).2⟩

/-! ### Claim C9 -/

/-- Claim C9 as stated is false on overlapping names: `centos-ubuntu`
contains `centos`, so by the claim it should map to the yum family, but the
code checks the ubuntu/debian patterns first and returns `apt`. -/
theorem C9_counterexample :
    strContains "centos-ubuntu" "centos" = true ∧
    get_package_manager "centos-ubuntu" = "apt" ∧
    get_package_manager "centos-ubuntu" ≠ "yum" :=
  ⟨rfl, rfl, by decide⟩

/-- Claim C9 (amended): package-manager auto-detection is a pure substring
match with the apt patterns taking precedence: names containing `ubuntu` or
`debian` map to `apt`; names containing `centos` or `fedora` but neither
`ubuntu` nor `debian` map to `yum`; a name containing none of the four is
`unknown`, and `cmd_create` with no explicit package manager then refuses to
proceed with the unknown-package-manager error, changing nothing. -/
theorem C9_package_manager_detection (base : String) :
    ((strContains base "ubuntu" = true ∨ strContains base "debian" = true) →
      get_package_manager base = "apt") ∧
    (strContains base "ubuntu" = false → strContains base "debian" = false →
      (strContains base "centos" = true ∨ strContains base "fedora" = true) →
      get_package_manager base = "yum") ∧
    (strContains base "ubuntu" = false → strContains base "debian" = false →
      strContains base "centos" = false → strContains base "fedora" = false →
      get_package_manager base = "unknown" ∧
      ∀ (name version : String) (env : Path) (w : World),
        cmd_create name base version "" env w
          = (w, Except.error Err.unknownPackageManager)) := by
  refine ⟨?_, ?_, ?_⟩
  · rintro (h | h) <;> simp [get_package_manager, h]
  · intro h1 h2 h3
    rcases h3 with h | h <;> simp [get_package_manager, h1, h2, h]
  · intro h1 h2 h3 h4
    have hu : get_package_manager base = "unknown" := by
      simp [get_package_manager, h1, h2, h3, h4]
    refine ⟨hu, ?_⟩
    intro name version env w
    unfold cmd_create
    simp [hu]

/-- Witness for C9 at concrete base-image names. -/
theorem C9_witness :
    strContains "centos" "ubuntu" = false ∧
    get_package_manager "centos" = "yum" ∧
    get_package_manager "ubuntu:22.04" = "apt" ∧
    cmd_create "n" "alpine:3" "v" "" ["e"] emptyWorld
      = (emptyWorld, Except.error Err.unknownPackageManager) :=
  ⟨rfl, (C9_package_manager_detection "centos").2.1 rfl rfl (Or.inl rfl),
   (C9_package_manager_detection "ubuntu:22.04").1 (Or.inl rfl),
   ((C9_package_manager_detection "alpine:3").2.2 rfl rfl rfl rfl).2 "n" "v" ["e"] emptyWorld⟩

/-! ### Characterizing successful registry resolution -/

theorem readJson_ok {fs : FS} {p : Path} {r : Registry}
    (h : fs.readJson p = .ok r) :
    fs.files.lookup p = some (FileData.registryData r) := by
  unfold FS.readJson at h
  rcases hl : fs.files.lookup p with - | d
  · rw [hl] at h
    by_cases hd : fs.isDirB p = true <;> simp [hd] at h
  · rw [hl] at h
    cases d with
    | registryData r2 =>
      simp only [Except.ok.injEq] at h
      rw [← h]
    | badData => simp at h
    | castData => simp at h
    | sifData => simp at h
    | textData s => simp at h

theorem lookup_none_of_not_exists {fs : FS} {p : Path}
    (h : fs.pathExists p = false) : fs.files.lookup p = none := by
  unfold FS.pathExists FS.isFile at h
  rcases hl : fs.files.lookup p with - | d
  · rfl
  · rw [hl] at h
    simp at h

/-- The two ways `load_registry` can succeed: the file is present and parses,
or the file is absent and the record is fresh (with the parent made). -/
theorem load_registry_ok_cases {fs fs2 : FS} {env : Path} {r : Registry}
    (h : load_registry fs env = (fs2, .ok r)) :
    (fs.files.lookup (registryPath env) = some (FileData.registryData r) ∧ fs2 = fs) ∨
    (fs.files.lookup (registryPath env) = none ∧
     r = { version := REGISTRY_VERSION, containers := [] } ∧
     fs2.files = fs.files ∧ (∀ d ∈ fs.dirs, d ∈ fs2.dirs) ∧
     (fs.wfB = true → fs2.wfB = true) ∧
     (∀ q, fs.isDirB q = true → fs2.isDirB q = true)) := by
  unfold load_registry at h
  by_cases hex : fs.pathExists (registryPath env) = true
  · simp only [hex, Bool.not_true, Bool.false_eq_true, if_false] at h
    rw [Prod.mk.injEq] at h
    obtain ⟨rfl, hr⟩ := h
    exact Or.inl ⟨readJson_ok hr, rfl⟩
  · simp only [Bool.not_eq_true] at hex
    simp only [hex, Bool.not_false, eq_self_iff_true, if_pos trivial] at h
    rcases hm : fs.makedirs (registryPath env).dropLast false with ⟨fsm, mres⟩
    rw [hm] at h
    cases mres with
    | error e => simp at h
    | ok u =>
      cases u
      rw [Prod.mk.injEq] at h
      obtain ⟨rfl, hr⟩ := h
      refine Or.inr ⟨lookup_none_of_not_exists hex, by simpa using hr.symm, ?_, ?_, ?_, ?_⟩
      · have := FS.makedirs_files fs (registryPath env).dropLast false
        rw [hm] at this
        exact this
      · intro d hd
        have := FS.makedirs_keepsDirs fs (registryPath env).dropLast false d hd
        rw [hm] at this
        exact this
      · intro hwf
        have := FS.makedirs_wf (registryPath env).dropLast false hwf
        rw [hm] at this
        exact this
      · intro q hq
        have := @FS.makedirs_isDirB_mono fs q (registryPath env).dropLast false hq
        rw [hm] at this
        exact this

/-- What a successful `save_registry` does: the registry file now holds the
record, no other file changed, directories only grew, well-formedness is
kept. -/
theorem save_registry_ok {fs fs2 : FS} {env : Path} {r : Registry}
    (h : save_registry fs env r = (fs2, .ok ())) :
    fs2.files.lookup (registryPath env) = some (FileData.registryData r) ∧
    (∀ q, q ≠ registryPath env → fs2.files.lookup q = fs.files.lookup q) ∧
    (∀ d ∈ fs.dirs, d ∈ fs2.dirs) ∧
    (fs.wfB = true → fs2.wfB = true) ∧
    (∀ q, fs.isDirB q = true → fs2.isDirB q = true) := by
  unfold save_registry at h
  by_cases hex : fs.pathExists (registryPath env) = true
  · simp only [hex, Bool.not_true, Bool.false_eq_true, if_false] at h
    have hw := FS.writeFile_ok h
    subst hw
    refine ⟨?_, ?_, ?_, ?_, ?_⟩
    · rw [FS.setFile_lookup]
      simp
    · intro q hq
      rw [FS.setFile_lookup, if_neg hq]
    · intro d hd
      rw [FS.setFile_dirs] at *
      exact hd
    · exact FS.wfB_of_dirs_eq (FS.setFile_dirs fs _ _)
    · intro q hq
      exact FS.isDirB_of_dirs_eq (FS.setFile_dirs fs _ _) hq
  · simp only [Bool.not_eq_true] at hex
    simp only [hex, Bool.not_false, eq_self_iff_true, if_pos trivial] at h
    rcases hm : fs.makedirs (registryPath env).dropLast true with ⟨fsm, mres⟩
    rw [hm] at h
    cases mres with
    | error e => simp at h
    | ok u =>
      cases u
      have hw := FS.writeFile_ok h
      subst hw
      have hmf : fsm.files = fs.files := by
        have := FS.makedirs_files fs (registryPath env).dropLast true
        rw [hm] at this
        exact this
      refine ⟨?_, ?_, ?_, ?_, ?_⟩
      · rw [FS.setFile_lookup]
        simp
      · intro q hq
        rw [FS.setFile_lookup, if_neg hq, hmf]
      · intro d hd
        rw [FS.setFile_dirs]
        have := FS.makedirs_keepsDirs fs (registryPath env).dropLast true d hd
        rw [hm] at this
        exact this
      · intro hwf
        refine FS.wfB_of_dirs_eq (FS.setFile_dirs fsm _ _) ?_
        have := FS.makedirs_wf (registryPath env).dropLast true hwf
        rw [hm] at this
        exact this
      · intro q hq
        refine FS.isDirB_of_dirs_eq (FS.setFile_dirs fsm _ _) ?_
        have := @FS.makedirs_isDirB_mono fs q (registryPath env).dropLast true hq
        rw [hm] at this
        exact this

theorem registryInvB_lookup {fs : FS} {env : Path} {r : Registry}
    (hfile : fs.files.lookup (registryPath env) = some (FileData.registryData r))
    (hinv : registryInvB fs env = true) :
    ∀ nc ∈ r.containers, fs.isDirB nc.2 = true := by
  unfold registryInvB at hinv
  rw [hfile] at hinv
  simpa [List.all_eq_true] using hinv

theorem registryInvB_of_lookup {fs : FS} {env : Path} {r : Registry}
    (hfile : fs.files.lookup (registryPath env) = some (FileData.registryData r))
    (h : ∀ nc ∈ r.containers, fs.isDirB nc.2 = true) :
    registryInvB fs env = true := by
  unfold registryInvB
  rw [hfile]
  simpa [List.all_eq_true] using h

theorem registryInvB_none {fs : FS} {env : Path}
    (h : fs.files.lookup (registryPath env) = none) :
    registryInvB fs env = true := by
  unfold registryInvB
  rw [h]

/-- The invariant transfers along any step that keeps the registry file
content and only grows the directories. -/
theorem registryInvB_mono {fs fs2 : FS} {env : Path}
    (hfiles : fs2.files.lookup (registryPath env) = fs.files.lookup (registryPath env))
    (hmono : ∀ q, fs.isDirB q = true → fs2.isDirB q = true)
    (hinv : registryInvB fs env = true) : registryInvB fs2 env = true := by
  rcases hl : fs.files.lookup (registryPath env) with - | d
  · exact registryInvB_none (hfiles.trans hl)
  · cases d with
    | registryData r =>
      exact registryInvB_of_lookup (hfiles.trans hl)
        (fun nc hnc => hmono _ (registryInvB_lookup hl hinv nc hnc))
    | badData => unfold registryInvB; rw [hfiles, hl]
    | castData => unfold registryInvB; rw [hfiles, hl]
    | sifData => unfold registryInvB; rw [hfiles, hl]
    | textData s => unfold registryInvB; rw [hfiles, hl]

/-- Whatever `load_registry` returns, the files are untouched, directories
only grow, and well-formedness is preserved. -/
theorem load_registry_fst (fs : FS) (env : Path) :
    (load_registry fs env).1.files = fs.files ∧
    (∀ d ∈ fs.dirs, d ∈ (load_registry fs env).1.dirs) ∧
    (fs.wfB = true → (load_registry fs env).1.wfB = true) ∧
    (∀ q, fs.isDirB q = true → (load_registry fs env).1.isDirB q = true) := by
  unfold load_registry
  by_cases hex : fs.pathExists (registryPath env) = true
  · simp only [hex, Bool.not_true, Bool.false_eq_true, if_false]
    exact ⟨by simp, fun d hd => hd, fun hwf => hwf, fun q hq => hq⟩
  · simp only [Bool.not_eq_true] at hex
    simp only [hex, Bool.not_false, eq_self_iff_true, if_pos trivial]
    rcases hm : fs.makedirs (registryPath env).dropLast false with ⟨fsm, mres⟩
    have hf := FS.makedirs_files fs (registryPath env).dropLast false
    have hk := FS.makedirs_keepsDirs fs (registryPath env).dropLast false
    have hw := fun hwf => @FS.makedirs_wf fs (registryPath env).dropLast false hwf
    have hmq := fun q hq =>
      @FS.makedirs_isDirB_mono fs q (registryPath env).dropLast false hq
    rw [hm] at hf hk hw hmq
    cases mres with
    | error e => exact ⟨hf, hk, hw, hmq⟩
    | ok u => cases u; exact ⟨hf, hk, hw, hmq⟩

/-- A failed `save_registry` leaves the files untouched (the write itself is
all-or-nothing in this model), only growing directories. -/
theorem save_registry_error {fs fs2 : FS} {env : Path} {r : Registry} {e : Err}
    (h : save_registry fs env r = (fs2, .error e)) :
    fs2.files = fs.files ∧ (∀ d ∈ fs.dirs, d ∈ fs2.dirs) ∧
    (fs.wfB = true → fs2.wfB = true) ∧
    (∀ q, fs.isDirB q = true → fs2.isDirB q = true) := by
  unfold save_registry at h
  by_cases hex : fs.pathExists (registryPath env) = true
  · simp only [hex, Bool.not_true, Bool.false_eq_true, if_false] at h
    unfold FS.writeFile at h
    by_cases h1 : fs.isDirB (registryPath env) = true
    · simp only [h1, if_pos trivial] at h
      rw [Prod.mk.injEq] at h
      obtain ⟨rfl, -⟩ := h
      exact ⟨rfl, fun d hd => hd, fun hwf => hwf, fun q hq => hq⟩
    · simp only [Bool.not_eq_true] at h1
      by_cases h2 : fs.isDirB (registryPath env).dropLast = true
      · simp [h1, h2] at h
      · simp only [Bool.not_eq_true] at h2
        simp only [h1, h2, Bool.false_eq_true, if_false, Bool.not_false,
          eq_self_iff_true, if_pos trivial] at h
        rw [Prod.mk.injEq] at h
        obtain ⟨rfl, -⟩ := h
        exact ⟨rfl, fun d hd => hd, fun hwf => hwf, fun q hq => hq⟩
  · simp only [Bool.not_eq_true] at hex
    simp only [hex, Bool.not_false, eq_self_iff_true, if_pos trivial] at h
    rcases hm : fs.makedirs (registryPath env).dropLast true with ⟨fsm, mres⟩
    rw [hm] at h
    have hf := FS.makedirs_files fs (registryPath env).dropLast true
    have hk := FS.makedirs_keepsDirs fs (registryPath env).dropLast true
    have hw := fun hwf => @FS.makedirs_wf fs (registryPath env).dropLast true hwf
    have hmq := fun q hq =>
      @FS.makedirs_isDirB_mono fs q (registryPath env).dropLast true hq
    rw [hm] at hf hk hw hmq
    cases mres with
    | error e2 =>
      rw [Prod.mk.injEq] at h
      obtain ⟨rfl, -⟩ := h
      exact ⟨hf, hk, hw, hmq⟩
    | ok u =>
      cases u
      unfold FS.writeFile at h
      by_cases h1 : fsm.isDirB (registryPath env) = true
      · simp only [h1, if_pos trivial] at h
        rw [Prod.mk.injEq] at h
        obtain ⟨rfl, -⟩ := h
        exact ⟨hf, hk, hw, hmq⟩
      · simp only [Bool.not_eq_true] at h1
        by_cases h2 : fsm.isDirB (registryPath env).dropLast = true
        · simp [h1, h2] at h
        · simp only [Bool.not_eq_true] at h2
          simp only [h1, h2, Bool.false_eq_true, if_false, Bool.not_false,
            eq_self_iff_true, if_pos trivial] at h
          rw [Prod.mk.injEq] at h
          obtain ⟨rfl, -⟩ := h
          exact ⟨hf, hk, hw, hmq⟩

/-- Everything a successful `get_container_path` guarantees: afterwards the
registry file holds a record mapping `name` to the returned path; the trace
gained exactly one `save_registry` event when the name was fresh and none
when it was already registered (then nothing at all changed); directories
only grow; well-formedness and the registry invariant are preserved; the
oracle cursors other than the uuid cursor are untouched. -/
theorem get_container_path_ok {w w1 : World} {env : Path} {name : String} {p : Path}
    (h : get_container_path w env name = (w1, .ok p)) :
    ∃ r1 : Registry,
      w1.fs.files.lookup (registryPath env) = some (FileData.registryData r1) ∧
      r1.containers.lookup name = some p ∧
      w1.trace = w.trace ++
        (if registeredIn w.fs env name then [] else [Event.saveRegistryEvent]) ∧
      (registeredIn w.fs env name = true → w1 = w) ∧
      (∀ q, w.fs.isDirB q = true → w1.fs.isDirB q = true) ∧
      (w.fs.wfB = true → w1.fs.wfB = true) ∧
      (registryInvB w.fs env = true → registryInvB w1.fs env = true) ∧
      w1.idStream = w.idStream ∧ w1.ext = w.ext ∧ w1.extCount = w.extCount ∧
      w1.clock = w.clock := by
  unfold get_container_path at h
  rcases hl : load_registry w.fs env with ⟨fs, res⟩
  rw [hl] at h
  cases res with
  | error e => dsimp only at h; simp at h
  | ok registry =>
    dsimp only at h
    rcases hn : registry.containers.lookup name with - | p0
    · rw [hn] at h
      dsimp only [generate_container_id, World.freshUuid] at h
      rcases hm : fs.makedirs (env ++ [w.idStream w.idCount]) false with ⟨fs2, mres⟩
      rw [hm] at h
      cases mres with
      | error e => dsimp only at h; simp at h
      | ok u =>
        cases u
        dsimp only at h
        rcases hs : save_registry fs2 env
            { version := registry.version,
              containers := registry.containers ++ [(name, env ++ [w.idStream w.idCount])] }
          with ⟨fs3, sres⟩
        rw [hs] at h
        cases sres with
        | error e => dsimp only at h; simp at h
        | ok u2 =>
          cases u2
          dsimp only at h
          rw [Prod.mk.injEq] at h
          obtain ⟨hw1, hp⟩ := h
          simp only [Except.ok.injEq] at hp
          subst hp
          obtain ⟨hs1, hs2, hs3, hs4, hs5⟩ := save_registry_ok hs
          have hreg : registeredIn w.fs env name = false := by
            rcases load_registry_ok_cases hl with ⟨hfile, rfl⟩ | ⟨hnone, -, -⟩
            · unfold registeredIn
              rw [hfile]
              dsimp only
              rw [hn]
              rfl
            · unfold registeredIn
              rw [hnone]
          have hmono : ∀ q, w.fs.isDirB q = true → fs3.isDirB q = true := by
            intro q hq
            rcases load_registry_ok_cases hl with ⟨-, rfl⟩ | ⟨-, -, -, -, -, hld⟩
            · have h2 := @FS.makedirs_isDirB_mono w.fs q
                (env ++ [w.idStream w.idCount]) false hq
              rw [hm] at h2
              exact hs5 q h2
            · have h2 := @FS.makedirs_isDirB_mono fs q
                (env ++ [w.idStream w.idCount]) false (hld q hq)
              rw [hm] at h2
              exact hs5 q h2
          have hcpdir : fs3.isDirB (env ++ [w.idStream w.idCount]) = true :=
            hs5 _ (FS.makedirs_ok_isDirB hm)
          have hlook2 : List.lookup name
              (registry.containers ++ [(name, env ++ [w.idStream w.idCount])])
              = some (env ++ [w.idStream w.idCount]) := by
            rw [lookup_append_of_none name registry.containers _ hn, lookup_cons]
            simp
          refine ⟨
            { version := registry.version,
              containers := registry.containers ++ [(name, env ++ [w.idStream w.idCount])] },
            ?_, hlook2, ?_, ?_, ?_, ?_, ?_, ?_, ?_, ?_, ?_⟩
          · rw [← hw1]
            exact hs1
          · rw [← hw1, hreg]
            rfl
          · intro hfalse
            rw [hreg] at hfalse
            simp at hfalse
          · intro q hq
            rw [← hw1]
            exact hmono q hq
          · intro hwf
            rw [← hw1]
            rcases load_registry_ok_cases hl with ⟨-, rfl⟩ | ⟨-, -, -, -, hlw, -⟩
            · have h2 := @FS.makedirs_wf w.fs
                (env ++ [w.idStream w.idCount]) false hwf
              rw [hm] at h2
              exact hs4 h2
            · have h2 := @FS.makedirs_wf fs
                (env ++ [w.idStream w.idCount]) false (hlw hwf)
              rw [hm] at h2
              exact hs4 h2
          · intro hinv
            rw [← hw1]
            refine registryInvB_of_lookup hs1 ?_
            intro nc hnc
            rcases List.mem_append.mp hnc with hnc | hnc
            · rcases load_registry_ok_cases hl with ⟨hfile, rfl⟩ | ⟨-, rfl, -⟩
              · exact hmono _ (registryInvB_lookup hfile hinv nc hnc)
              · simp at hnc
            · simp only [List.mem_singleton] at hnc
              rw [hnc]
              exact hcpdir
          · rw [← hw1]
          · rw [← hw1]
          · rw [← hw1]
          · rw [← hw1]
    · rw [hn] at h
      dsimp only at h
      rw [Prod.mk.injEq] at h
      obtain ⟨hw1, hp⟩ := h
      simp only [Except.ok.injEq] at hp
      subst hp
      rcases load_registry_ok_cases hl with ⟨hfile, rfl⟩ | ⟨-, rfl, -⟩
      · have hreg : registeredIn w.fs env name = true := by
          unfold registeredIn
          rw [hfile]
          dsimp only
          rw [hn]
          rfl
        refine ⟨registry, ?_, hn, ?_, ?_, ?_, ?_, ?_, ?_, ?_, ?_, ?_⟩
        · rw [← hw1]
          exact hfile
        · rw [← hw1, hreg]
          simp
        · intro _h
          rw [← hw1]
        · intro q hq
          rw [← hw1]
          exact hq
        · intro hwf
          rw [← hw1]
          exact hwf
        · intro hinv
          rw [← hw1]
          exact hinv
        · rw [← hw1]
        · rw [← hw1]
        · rw [← hw1]
        · rw [← hw1]
      · simp [List.lookup] at hn

/-! ### Claim C6 -/

/-- Claim C6 as stated is false: when the name is already registered before
the first call, resolving it twice performs zero registry mutations, not
exactly one. Both calls return the stored path and no `save_registry` is ever
invoked. -/
theorem C6_counterexample :
    (get_container_path regWorldEmpty ["e"] "n").2 = Except.ok ["e", "c"] ∧
    (get_container_path (get_container_path regWorldEmpty ["e"] "n").1 ["e"] "n").2
      = Except.ok ["e", "c"] ∧
    regWorldEmpty.trace = [] ∧
    (get_container_path (get_container_path regWorldEmpty ["e"] "n").1 ["e"] "n").1.trace.count
        Event.saveRegistryEvent = 0 :=
  ⟨rfl, rfl, rfl, rfl⟩

/-- Claim C6 (amended): calling container-path resolution twice in sequence
with the same name returns the identical path both times; the second call
performs no save and changes nothing at all; across the two calls the
persisted registry is saved exactly once when the name was initially
unregistered and zero times when it was already registered. -/
theorem C6_resolution_idempotent (w : World) (env : Path) (name : String) (p : Path)
    (w1 : World) (h1 : get_container_path w env name = (w1, Except.ok p)) :
    get_container_path w1 env name = (w1, Except.ok p) ∧
    w1.trace = w.trace ++
      (if registeredIn w.fs env name then [] else [Event.saveRegistryEvent]) := by
  obtain ⟨r1, hfile, hname, htrace, -⟩ := get_container_path_ok h1
  exact ⟨get_container_path_found hfile hname, htrace⟩

/-- Witness for C6 at a concrete world with a fresh name. -/
theorem C6_witness :
    get_container_path (get_container_path emptyWorld ["e"] "n").1 ["e"] "n"
      = ((get_container_path emptyWorld ["e"] "n").1, Except.ok ["e", "id0"]) ∧
    (get_container_path emptyWorld ["e"] "n").1.trace
      = emptyWorld.trace ++
        (if registeredIn emptyWorld.fs ["e"] "n" then [] else [Event.saveRegistryEvent]) :=
  C6_resolution_idempotent emptyWorld ["e"] "n" ["e", "id0"]
    (get_container_path emptyWorld ["e"] "n").1 rfl

/-! ### Claim C8 -/

theorem count_eq_one_of_mem_nodup {α : Type} [BEq α] [LawfulBEq α] {a : α} {l : List α}
    (hnd : l.Nodup) (hm : a ∈ l) : List.count a l = 1 := by
  induction l with
  | nil => simp at hm
  | cons b l ih =>
    rw [List.count_cons]
    rw [List.nodup_cons] at hnd
    rcases List.mem_cons.mp hm with rfl | hm2
    · rw [if_pos (by simp), List.count_eq_zero.mpr hnd.1]
    · have hba : ¬ b = a := fun hba => hnd.1 (hba ▸ hm2)
      rw [if_neg (by simpa using hba), ih hnd.2 hm2]

theorem mem_of_lookup {α β : Type} [BEq α] [LawfulBEq α] {k : α} {v : β}
    {l : List (α × β)} (h : List.lookup k l = some v) : (k, v) ∈ l := by
  induction l with
  | nil => simp [List.lookup] at h
  | cons a l ih =>
    obtain ⟨k1, v1⟩ := a
    rw [lookup_cons] at h
    cases hk : (k == k1) with
    | false =>
      simp only [hk] at h
      simp at h
      exact List.mem_cons_of_mem _ (ih h)
    | true =>
      simp only [hk, if_pos rfl] at h
      simp at h
      have hkk : k = k1 := by simpa using hk
      rw [hkk, h]
      exact List.mem_cons_self _ _

theorem childName_eq_some {p q : Path} {c : String} :
    FS.childName p q = some c ↔ q = p ++ [c] := by
  unfold FS.childName
  constructor
  · intro h
    by_cases hc : (q.length == p.length + 1 && leadsTo p q) = true
    · rw [if_pos hc] at h
      simp only [Bool.and_eq_true, beq_iff_eq] at hc
      obtain ⟨t, rfl⟩ := leadsTo_iff.mp hc.2
      have hlt : t.length = 1 := by
        have := hc.1
        rw [List.length_append] at this
        omega
      rcases t with - | ⟨a, t2⟩
      · simp at hlt
      · rcases t2 with - | ⟨b, t3⟩
        · rw [List.getLast?_concat] at h
          simp at h
          rw [h]
        · simp at hlt
    · rw [if_neg hc] at h
      simp at h
  · rintro rfl
    rw [if_pos ?side]
    · exact List.getLast?_concat p
    · simp [leadsTo_append]

theorem mem_children {fs : FS} {p : Path} {v : String} :
    v ∈ (fs.dirs.filterMap (FS.childName p) ++
         (fs.files.map Prod.fst).filterMap (FS.childName p)).dedup
    ↔ ((p ++ [v]) ∈ fs.dirs ∨ (p ++ [v]) ∈ fs.files.map Prod.fst) := by
  rw [List.mem_dedup, List.mem_append, List.mem_filterMap, List.mem_filterMap]
  constructor
  · rintro (⟨a, ha, hc⟩ | ⟨a, ha, hc⟩)
    · rw [childName_eq_some.mp hc] at ha
      exact Or.inl ha
    · rw [childName_eq_some.mp hc] at ha
      exact Or.inr ha
  · rintro (hm | hm)
    · exact Or.inl ⟨p ++ [v], hm, childName_eq_some.mpr rfl⟩
    · exact Or.inr ⟨p ++ [v], hm, childName_eq_some.mpr rfl⟩

theorem listdir_ok {fs : FS} {p : Path} (h1 : fs.isFile p = false)
    (h2 : fs.isDirB p = true) :
    fs.listdir p = .ok ((fs.dirs.filterMap (FS.childName p) ++
      (fs.files.map Prod.fst).filterMap (FS.childName p)).dedup) := by
  unfold FS.listdir
  simp [h1, h2]

/-- The printing loop never errors when every registered directory exists,
prints a pair only when the image file is present, and prints a version
directory holding the image exactly once. -/
theorem listContainers_spec (fs : FS) (entries : List (String × Path))
    (hdirs : ∀ e ∈ entries, fs.isFile e.2 = false ∧ fs.isDirB e.2 = true) :
    (listContainers fs entries).2 = none ∧
    (∀ c v, (c, v) ∈ (listContainers fs entries).1 →
      ∃ pp, (c, pp) ∈ entries ∧ fs.pathExists (pp ++ [v, "container.sif"]) = true) ∧
    ((entries.map Prod.fst).Nodup →
      ∀ c v pp, (c, pp) ∈ entries → (pp ++ [v]) ∈ fs.dirs →
        fs.pathExists (pp ++ [v, "container.sif"]) = true →
        (listContainers fs entries).1.count (c, v) = 1) := by
  induction entries with
  | nil =>
    refine ⟨rfl, ?_, ?_⟩
    · intro c v hm
      simp [listContainers] at hm
    · intro _nd c v pp hm
      simp at hm
  | cons e rest ih =>
    obtain ⟨c0, p0⟩ := e
    obtain ⟨hf0, hd0⟩ := hdirs (c0, p0) (List.mem_cons_self _ _)
    have hdirs2 : ∀ e ∈ rest, fs.isFile e.2 = false ∧ fs.isDirB e.2 = true :=
      fun e he => hdirs e (List.mem_cons_of_mem _ he)
    obtain ⟨ih1, ih2, ih3⟩ := ih hdirs2
    have hexp : listContainers fs ((c0, p0) :: rest)
        = ((((fs.dirs.filterMap (FS.childName p0) ++
              (fs.files.map Prod.fst).filterMap (FS.childName p0)).dedup.filter
              (fun child => fs.pathExists (p0 ++ [child, "container.sif"]))).map
              (fun child => (c0, child)) ++ (listContainers fs rest).1),
           (listContainers fs rest).2) := by
      simp only [listContainers]
      rw [listdir_ok hf0 hd0]
    refine ⟨by rw [hexp]; exact ih1, ?_, ?_⟩
    · intro c v hm
      rw [hexp] at hm
      rcases List.mem_append.mp hm with hm | hm
      · rw [List.mem_map] at hm
        obtain ⟨child, hchild, hpair⟩ := hm
        rw [Prod.mk.injEq] at hpair
        obtain ⟨rfl, rfl⟩ := hpair
        rw [List.mem_filter] at hchild
        exact ⟨p0, List.mem_cons_self _ _, hchild.2⟩
      · obtain ⟨pp, hpp, hsif⟩ := ih2 c v hm
        exact ⟨pp, List.mem_cons_of_mem _ hpp, hsif⟩
    · intro hnd c v pp hm hvdir hsif
      rw [hexp]
      rw [List.count_append]
      simp only [List.map_cons, List.nodup_cons] at hnd
      rcases List.mem_cons.mp hm with hm | hm
      · rw [Prod.mk.injEq] at hm
        obtain ⟨rfl, rfl⟩ := hm
        have hcount0 : (listContainers fs rest).1.count (c, v) = 0 := by
          rw [List.count_eq_zero]
          intro hmem
          obtain ⟨pp2, hpp2, -⟩ := ih2 c v hmem
          exact hnd.1 (List.mem_map_of_mem Prod.fst hpp2)
        rw [hcount0]
        have hinj : Function.Injective (fun child => ((c, child) : String × String)) := by
          intro a b hab
          simpa using hab
        have hnodup : ((fs.dirs.filterMap (FS.childName pp) ++
            (fs.files.map Prod.fst).filterMap (FS.childName pp)).dedup.filter
            (fun child => fs.pathExists (pp ++ [child, "container.sif"]))).Nodup :=
          List.Nodup.filter _ (List.nodup_dedup _)
        have hmemv : v ∈ (fs.dirs.filterMap (FS.childName pp) ++
            (fs.files.map Prod.fst).filterMap (FS.childName pp)).dedup.filter
            (fun child => fs.pathExists (pp ++ [child, "container.sif"])) := by
          rw [List.mem_filter]
          exact ⟨mem_children.mpr (Or.inl hvdir), hsif⟩
        rw [count_eq_one_of_mem_nodup (hnodup.map hinj)
          (List.mem_map_of_mem _ hmemv)]
      · have hc0 : c0 ≠ c := by
          intro hcc
          exact hnd.1 (hcc ▸ List.mem_map_of_mem Prod.fst hm)
        have hblock : List.count (c, v)
            ((((fs.dirs.filterMap (FS.childName p0) ++
              (fs.files.map Prod.fst).filterMap (FS.childName p0)).dedup.filter
              (fun child => fs.pathExists (p0 ++ [child, "container.sif"]))).map
              (fun child => (c0, child)))) = 0 := by
          rw [List.count_eq_zero]
          intro hmem
          rw [List.mem_map] at hmem
          obtain ⟨child, -, hpair⟩ := hmem
          rw [Prod.mk.injEq] at hpair
          exact hc0 hpair.1
        rw [hblock, ih3 hnd.2 c v pp hm hvdir hsif]

/-- Claim C8: under the registry invariant (every registered path is an
existing directory) and with the parsed registry well-formed (unique keys, as
JSON objects are), `cmd_list` succeeds without error; its output contains a
`(container, version)` line only if that version directory holds
`container.sif` (partially built versions are silently omitted), and a
version directory holding the image is printed exactly once. -/
theorem C8_list_correct (env : Path) (w : World) (r : Registry)
    (hfile : w.fs.files.lookup (registryPath env) = some (FileData.registryData r))
    (hkeys : (r.containers.map Prod.fst).Nodup)
    (hdirs : ∀ e ∈ r.containers, w.fs.isFile e.2 = false ∧ w.fs.isDirB e.2 = true) :
    ∃ out, cmd_list env w = (w, out, none) ∧
      (∀ c v, (c, v) ∈ out →
        ∃ pp, r.containers.lookup c = some pp ∧
          w.fs.pathExists (pp ++ [v, "container.sif"]) = true) ∧
      (∀ c v pp, r.containers.lookup c = some pp →
        (pp ++ [v]) ∈ w.fs.dirs →
        w.fs.pathExists (pp ++ [v, "container.sif"]) = true →
        out.count (c, v) = 1) := by
  obtain ⟨hs1, hs2, hs3⟩ := listContainers_spec w.fs r.containers hdirs
  refine ⟨(listContainers w.fs r.containers).1, ?_, ?_, ?_⟩
  · unfold cmd_list
    rw [load_registry_of_file hfile]
    dsimp only
    rw [show listContainers w.fs r.containers
        = ((listContainers w.fs r.containers).1, none) from by rw [← hs1]]
  · intro c v hm
    obtain ⟨pp, hpp, hsif⟩ := hs2 c v hm
    exact ⟨pp, lookup_eq_some_of_mem_nodup hpp hkeys, hsif⟩
  · intro c v pp hlook hvdir hsif
    exact hs3 hkeys c v pp (mem_of_lookup hlook) hvdir hsif

/-- A concrete world for the C8 witness: container `n` at `e/c` has a fully
built version `v` (directory + image) and a partially built version `u`
(directory, no image). -/
def listWorld : World :=
  { emptyWorld with fs :=
    { dirs := [["e"], ["e", "c"], ["e", "c", "v"], ["e", "c", "u"]],
      files := [(["e", "registry.json"],
                 FileData.registryData { version := 1, containers := [("n", ["e", "c"])] }),
                (["e", "c", "v", "container.sif"], FileData.sifData)] } }

/-- Witness for C8 at a concrete world. -/
theorem C8_witness :
    ∃ out, cmd_list ["e"] listWorld = (listWorld, out, none) ∧
      (∀ c v, (c, v) ∈ out →
        ∃ pp, ({ version := 1, containers := [("n", ["e", "c"])] }
            : Registry).containers.lookup c = some pp ∧
          listWorld.fs.pathExists (pp ++ [v, "container.sif"]) = true) ∧
      (∀ c v pp, ({ version := 1, containers := [("n", ["e", "c"])] }
            : Registry).containers.lookup c = some pp →
        (pp ++ [v]) ∈ listWorld.fs.dirs →
        listWorld.fs.pathExists (pp ++ [v, "container.sif"]) = true →
        out.count (c, v) = 1) :=
  C8_list_correct ["e"] listWorld { version := 1, containers := [("n", ["e", "c"])] }
    rfl (by simp) (by decide)

/-! ### Claim C10 -/

/-- Whatever `get_container_path` returns, the trace either is unchanged or
gained exactly one `save_registry` event, and the external-process oracle and
its cursor are untouched. -/
theorem get_container_path_fst (w : World) (env : Path) (name : String) :
    ((get_container_path w env name).1.trace = w.trace ∨
     (get_container_path w env name).1.trace = w.trace ++ [Event.saveRegistryEvent]) ∧
    (get_container_path w env name).1.ext = w.ext ∧
    (get_container_path w env name).1.extCount = w.extCount := by
  unfold get_container_path
  rcases hl : load_registry w.fs env with ⟨fs, res⟩
  cases res with
  | error e => exact ⟨Or.inl rfl, rfl, rfl⟩
  | ok registry =>
    dsimp only
    rcases hn : registry.containers.lookup name with - | p0
    · dsimp only [generate_container_id, World.freshUuid]
      rcases hm : fs.makedirs (env ++ [w.idStream w.idCount]) false with ⟨fs2, mres⟩
      cases mres with
      | error e => exact ⟨Or.inl rfl, rfl, rfl⟩
      | ok u =>
        cases u
        dsimp only
        rcases hs : save_registry fs2 env
            { version := registry.version,
              containers := registry.containers ++ [(name, env ++ [w.idStream w.idCount])] }
          with ⟨fs3, sres⟩
        cases sres with
        | error e => exact ⟨Or.inr rfl, rfl, rfl⟩
        | ok u2 => cases u2; exact ⟨Or.inr rfl, rfl, rfl⟩
    · exact ⟨Or.inl rfl, rfl, rfl⟩

/-- Claim C10: in any run of `cmd_create` that reaches the build phase,
removal of the temporary workspace is attempted exactly when image conversion
succeeded, i.e. when the three external steps consumed (sandbox build,
recording, conversion) all succeed; a failure of any earlier step aborts
immediately and cleanup is never attempted. When cleanup is attempted it
comes right after the convert step at the end of the trace. -/
theorem C10_cleanup_iff_convert (name base version pkg : String) (env : Path) (w : World)
    (hreach : Event.buildSandbox ∈
      ((cmd_create name base version pkg env w).1.trace.drop w.trace.length)) :
    ((Event.cleanup ∈
        ((cmd_create name base version pkg env w).1.trace.drop w.trace.length))
      ↔ (w.ext w.extCount = true ∧ w.ext (w.extCount + 1) = true ∧
         w.ext (w.extCount + 2) = true)) ∧
    ((Event.cleanup ∈
        ((cmd_create name base version pkg env w).1.trace.drop w.trace.length)) →
      ∃ pre, (cmd_create name base version pkg env w).1.trace.drop w.trace.length
        = pre ++ [Event.buildSandbox, Event.recordSession, Event.convertImage,
                  Event.cleanup]) := by
  rcases hC : cmd_create name base version pkg env w with ⟨wF, res⟩
  rw [hC] at hreach
  dsimp only at hreach ⊢
  unfold cmd_create at hC
  rcases hpm : (if (pkg == "") = true then
      (if get_package_manager base == "unknown" then Except.error Err.unknownPackageManager
       else Except.ok (get_package_manager base))
      else Except.ok pkg) with e | pm
  all_goals rw [hpm] at hC
  case error =>
    dsimp only at hC
    rw [Prod.mk.injEq] at hC
    obtain ⟨rfl, -⟩ := hC
    simp at hreach
  case ok =>
  dsimp only at hC
  rcases hg : get_container_path w env name with ⟨w1, gres⟩
  rw [hg] at hC
  obtain ⟨hg1, hg2, hg3⟩ := get_container_path_fst w env name
  rw [hg] at hg1 hg2 hg3
  dsimp only at hg1 hg2 hg3
  have hg1' : ∃ pre0, (pre0 = ([] : List Event) ∨ pre0 = [Event.saveRegistryEvent]) ∧
      w1.trace = w.trace ++ pre0 := by
    rcases hg1 with h | h
    · exact ⟨[], Or.inl rfl, by simpa using h⟩
    · exact ⟨[Event.saveRegistryEvent], Or.inr rfl, h⟩
  obtain ⟨pre0, hpre0, htr1⟩ := hg1'
  have hnoclean : Event.cleanup ∉ pre0 ∧ Event.buildSandbox ∉ pre0 := by
    rcases hpre0 with rfl | rfl <;> simp
  cases gres with
  | error e =>
    dsimp only at hC
    rw [Prod.mk.injEq] at hC
    obtain ⟨rfl, -⟩ := hC
    rw [htr1, List.drop_left] at hreach
    exact absurd hreach hnoclean.2
  | ok container_path =>
    dsimp only at hC
    rcases hv : get_container_version_path w1.fs container_path
        (if (version == "") = true then generate_version w else version) true
      with ⟨fsv, vres⟩
    rw [hv] at hC
    cases vres with
    | error e =>
      dsimp only at hC
      rw [Prod.mk.injEq] at hC
      obtain ⟨rfl, -⟩ := hC
      rw [htr1, List.drop_left] at hreach
      exact absurd hreach hnoclean.2
    | ok vp =>
      obtain ⟨version_path, exists2⟩ := vp
      dsimp only at hC
      cases exists2 with
      | true =>
        rw [if_pos rfl] at hC
        rw [Prod.mk.injEq] at hC
        obtain ⟨rfl, -⟩ := hC
        rw [htr1, List.drop_left] at hreach
        exact absurd hreach hnoclean.2
      | false =>
        rw [if_neg (by simp)] at hC
        unfold build_container_sandbox World.freshUuid at hC
        dsimp only at hC
        rcases hmt : fsv.makedirs (env ++ ["temp", w1.idStream w1.idCount]) false
          with ⟨fst, tres⟩
        rw [hmt] at hC
        cases tres with
        | error e =>
          dsimp only at hC
          rw [Prod.mk.injEq] at hC
          obtain ⟨rfl, -⟩ := hC
          rw [htr1, List.drop_left] at hreach
          exact absurd hreach hnoclean.2
        | ok u =>
          cases u
          dsimp only at hC
          rcases hwt : fst.writeFile
              (env ++ ["temp", w1.idStream w1.idCount] ++ ["template"])
              (FileData.textData (get_template pm base)) with ⟨fsw, wres⟩
          rw [hwt] at hC
          cases wres with
          | error e =>
            dsimp only at hC
            rw [Prod.mk.injEq] at hC
            obtain ⟨rfl, -⟩ := hC
            rw [htr1, List.drop_left] at hreach
            exact absurd hreach hnoclean.2
          | ok u2 =>
            cases u2
            unfold World.extCall at hC
            dsimp only at hC
            rw [hg2, hg3] at hC
            cases hx0 : w.ext w.extCount with
            | false =>
              rw [hx0] at hC
              rw [if_neg (by simp)] at hC
              rw [Prod.mk.injEq] at hC
              obtain ⟨rfl, -⟩ := hC
              dsimp only
              rw [htr1, List.append_assoc, List.drop_left]
              constructor
              · constructor
                · intro hcl
                  rcases List.mem_append.mp hcl with hcl | hcl
                  · exact absurd hcl hnoclean.1
                  · simp at hcl
                · rintro ⟨hx, -⟩
                  simp at hx
              · intro hcl
                rcases List.mem_append.mp hcl with hcl | hcl
                · exact absurd hcl hnoclean.1
                · simp at hcl
            | true =>
              rw [hx0] at hC
              rw [if_pos rfl] at hC
              dsimp only at hC
              unfold record_asciicast World.extCall at hC
              dsimp only at hC
              cases hx1 : w.ext (w.extCount + 1) with
              | false =>
                rw [hx1] at hC
                rw [if_neg (by simp)] at hC
                rw [Prod.mk.injEq] at hC
                obtain ⟨rfl, -⟩ := hC
                dsimp only
                rw [htr1, List.append_assoc, List.append_assoc, List.drop_left]
                constructor
                · constructor
                  · intro hcl
                    rcases List.mem_append.mp hcl with hcl | hcl
                    · exact absurd hcl hnoclean.1
                    · simp at hcl
                  · rintro ⟨-, hx, -⟩
                    simp at hx
                · intro hcl
                  rcases List.mem_append.mp hcl with hcl | hcl
                  · exact absurd hcl hnoclean.1
                  · simp at hcl
              | true =>
                rw [hx1] at hC
                rw [if_pos rfl] at hC
                dsimp only at hC
                unfold convert_container_to_sif World.extCall at hC
                dsimp only at hC
                cases hx2 : w.ext (w.extCount + 1 + 1) with
                | false =>
                  rw [hx2] at hC
                  rw [if_neg (by simp)] at hC
                  rw [Prod.mk.injEq] at hC
                  obtain ⟨rfl, -⟩ := hC
                  dsimp only
                  rw [htr1, List.append_assoc, List.append_assoc, List.append_assoc,
                    List.drop_left]
                  constructor
                  · constructor
                    · intro hcl
                      rcases List.mem_append.mp hcl with hcl | hcl
                      · exact absurd hcl hnoclean.1
                      · simp at hcl
                    · rintro ⟨-, -, hx⟩
                      simp at hx
                  · intro hcl
                    rcases List.mem_append.mp hcl with hcl | hcl
                    · exact absurd hcl hnoclean.1
                    · simp at hcl
                | true =>
                  rw [hx2] at hC
                  rw [if_pos rfl] at hC
                  dsimp only at hC
                  unfold cleanup_temporary_path World.extCall at hC
                  dsimp only at hC
                  cases hx3 : w.ext (w.extCount + 1 + 1 + 1) with
                  | false =>
                    rw [hx3] at hC
                    rw [if_neg (by simp)] at hC
                    rw [Prod.mk.injEq] at hC
                    obtain ⟨rfl, -⟩ := hC
                    dsimp only
                    rw [htr1, List.append_assoc, List.append_assoc, List.append_assoc,
                      List.append_assoc, List.drop_left]
                    constructor
                    · constructor
                      · intro _
                        exact ⟨rfl, rfl, rfl⟩
                      · intro _
                        simp
                    · intro _
                      refine ⟨pre0, ?_⟩
                      simp
                  | true =>
                    rw [hx3] at hC
                    rw [if_pos rfl] at hC
                    rw [Prod.mk.injEq] at hC
                    obtain ⟨rfl, -⟩ := hC
                    dsimp only
                    rw [htr1, List.append_assoc, List.append_assoc, List.append_assoc,
                      List.append_assoc, List.drop_left]
                    constructor
                    · constructor
                      · intro _
                        exact ⟨rfl, rfl, rfl⟩
                      · intro _
                        simp
                    · intro _
                      refine ⟨pre0, ?_⟩
                      simp

/-- Witness for C10: a fully successful create on an empty environment
reaches the build phase, and cleanup is attempted since all three prior
external steps succeed. -/
theorem C10_witness :
    Event.buildSandbox ∈
      ((cmd_create "alpha" "ubuntu:22.04" "v1" "" ["e"] emptyWorld).1.trace.drop
        emptyWorld.trace.length) ∧
    (((Event.cleanup ∈
        ((cmd_create "alpha" "ubuntu:22.04" "v1" "" ["e"] emptyWorld).1.trace.drop
          emptyWorld.trace.length))
      ↔ (emptyWorld.ext emptyWorld.extCount = true ∧
         emptyWorld.ext (emptyWorld.extCount + 1) = true ∧
         emptyWorld.ext (emptyWorld.extCount + 2) = true)) ∧
    ((Event.cleanup ∈
        ((cmd_create "alpha" "ubuntu:22.04" "v1" "" ["e"] emptyWorld).1.trace.drop
          emptyWorld.trace.length)) →
      ∃ pre, (cmd_create "alpha" "ubuntu:22.04" "v1" "" ["e"] emptyWorld).1.trace.drop
          emptyWorld.trace.length
        = pre ++ [Event.buildSandbox, Event.recordSession, Event.convertImage,
                  Event.cleanup])) :=
  ⟨by decide,
   C10_cleanup_iff_convert "alpha" "ubuntu:22.04" "v1" "" ["e"] emptyWorld (by decide)⟩

/-! ### Claim C5 -/

theorem pathExists_of_mem_dirs {fs : FS} {p : Path} (h : p ∈ fs.dirs) :
    fs.pathExists p = true := by
  unfold FS.pathExists FS.isDirB
  rw [containsMem.mpr h]
  simp

/-- A directory that exists cannot lie inside a subtree whose root does not
exist, on a well-formed filesystem. -/
theorem not_leadsTo_of_dir_not_exists {fs : FS} {t p : Path}
    (hwf : fs.wfB = true) (hp : p ∈ fs.dirs) (ht : t ≠ [])
    (hne : fs.pathExists t = false) : leadsTo t p = false := by
  cases hlt : leadsTo t p with
  | false => rfl
  | true =>
    exfalso
    obtain ⟨s, rfl⟩ := leadsTo_iff.mp hlt
    have htmem : t ∈ fs.dirs := by
      rcases s with - | ⟨c, s2⟩
      · rw [List.append_nil] at hp
        exact hp
      · exact FS.wf_ancestor hwf (c :: s2) t _ hp ht rfl
    rw [pathExists_of_mem_dirs htmem] at hne
    simp at hne

theorem append_singleton_ne {p q : Path} {a b : String} (h : a ≠ b) :
    p ++ [a] ≠ q ++ [b] := by
  intro he
  have h2 := congrArg List.getLast? he
  rw [List.getLast?_concat, List.getLast?_concat] at h2
  simp at h2
  exact h h2

/-- What a `get_container_version_path` call with `mkdir=True` reporting a
fresh version did: it created exactly that directory. -/
theorem gcvp_ok_false {fs fsv : FS} {cp vpp : Path} {version : String}
    (h : get_container_version_path fs cp version true = (fsv, .ok (vpp, false))) :
    vpp = cp ++ [version] ∧ fsv = fs.addDir (cp ++ [version]) ∧
    fs.pathExists (cp ++ [version]) = false ∧ fs.isDirB cp = true := by
  unfold get_container_version_path at h
  by_cases hex : fs.pathExists (cp ++ [version]) = true
  · simp [hex] at h
  · simp only [Bool.not_eq_true] at hex
    simp only [hex, Bool.not_false, eq_self_iff_true, if_pos trivial] at h
    rcases hm : fs.mkdir (cp ++ [version]) with ⟨fs2, mres⟩
    rw [hm] at h
    cases mres with
    | error e => simp at h
    | ok u =>
      cases u
      rw [Prod.mk.injEq] at h
      obtain ⟨rfl, hp⟩ := h
      simp only [Except.ok.injEq, Prod.mk.injEq] at hp
      obtain ⟨m1, m2, m3⟩ := FS.mkdir_ok hm
      rw [List.dropLast_concat] at m3
      exact ⟨hp.1.symm, m1, hex, m3⟩

/-- After a successful `cmd_create` from a well-formed filesystem, the
registry file maps the name to a container path whose version directory
exists, and the pure package-manager stage demonstrably passed. -/
theorem cmd_create_ok_state (name base version pkg : String) (env : Path) (w w1 : World)
    (hwf : w.fs.wfB = true) (hv : version ≠ "")
    (hC : cmd_create name base version pkg env w = (w1, Except.ok ())) :
    (pkg ≠ "" ∨ get_package_manager base ≠ "unknown") ∧
    ∃ r1 cp, w1.fs.files.lookup (registryPath env) = some (FileData.registryData r1) ∧
      r1.containers.lookup name = some cp ∧
      w1.fs.pathExists (cp ++ [version]) = true := by
  have hvb : (version == "") = false := by simpa using hv
  unfold cmd_create at hC
  simp only [hvb, Bool.false_eq_true, if_false] at hC
  rcases hpm : (if (pkg == "") = true then
      (if get_package_manager base == "unknown" then Except.error Err.unknownPackageManager
       else Except.ok (get_package_manager base))
      else Except.ok pkg) with e | pm
  all_goals rw [hpm] at hC
  case error =>
    dsimp only at hC
    simp at hC
  case ok =>
  have hpm2 : pkg ≠ "" ∨ get_package_manager base ≠ "unknown" := by
    by_cases hpk : (pkg == "") = true
    · right
      rw [if_pos hpk] at hpm
      by_cases hdu : (get_package_manager base == "unknown") = true
      · rw [if_pos hdu] at hpm
        simp at hpm
      · simpa using hdu
    · left
      simpa using hpk
  refine ⟨hpm2, ?_⟩
  dsimp only at hC
  rcases hg : get_container_path w env name with ⟨wg, gres⟩
  rw [hg] at hC
  cases gres with
  | error e =>
    dsimp only at hC
    simp at hC
  | ok cp =>
    dsimp only at hC
    obtain ⟨r1, F1, F2, -, -, Fmono, Fwf, -, -, -, -, -⟩ := get_container_path_ok hg
    have hwfg : wg.fs.wfB = true := Fwf hwf
    rcases hv2 : get_container_version_path wg.fs cp version true with ⟨fsv, vres⟩
    rw [hv2] at hC
    cases vres with
    | error e =>
      dsimp only at hC
      simp at hC
    | ok vpex =>
      obtain ⟨vp, ex⟩ := vpex
      dsimp only at hC
      cases ex with
      | true =>
        rw [if_pos rfl] at hC
        simp at hC
      | false =>
        rw [if_neg (by simp)] at hC
        obtain ⟨hvp, Gfs, Gnex, Gcpdir⟩ := gcvp_ok_false hv2
        subst hvp
        have hvp_mem : (cp ++ [version]) ∈ fsv.dirs := by
          rw [Gfs]
          exact List.mem_cons_self _ _
        have hfsv_files : fsv.files = wg.fs.files := by
          rw [Gfs]
          exact FS.addDir_files _ _
        have hwfv : fsv.wfB = true := by
          rw [Gfs]
          refine FS.wfB_addDir hwfg (by simp) ?_
          rw [List.dropLast_concat]
          exact Gcpdir
        unfold build_container_sandbox World.freshUuid at hC
        dsimp only at hC
        rcases hmt : fsv.makedirs (env ++ ["temp", wg.idStream wg.idCount]) false
          with ⟨fst, tres⟩
        rw [hmt] at hC
        cases tres with
        | error e =>
          dsimp only at hC
          simp at hC
        | ok u =>
          cases u
          dsimp only at hC
          have hnex_t : fsv.pathExists (env ++ ["temp", wg.idStream wg.idCount]) = false :=
            FS.makedirs_ok_not_exists hmt
          have hNL2 : leadsTo (env ++ ["temp", wg.idStream wg.idCount])
              (cp ++ [version]) = false :=
            not_leadsTo_of_dir_not_exists hwfv hvp_mem (by simp) hnex_t
          have hNL1 : leadsTo (env ++ ["temp", wg.idStream wg.idCount])
              (registryPath env) = false := by
            refine leadsTo_eq_false_of_lt ?_
            simp [registryPath]
          have hfst_files : fst.files = fsv.files := by
            have h2 := FS.makedirs_files fsv (env ++ ["temp", wg.idStream wg.idCount]) false
            rw [hmt] at h2
            exact h2
          have hfst_mem : (cp ++ [version]) ∈ fst.dirs := by
            have h2 := FS.makedirs_keepsDirs fsv (env ++ ["temp", wg.idStream wg.idCount])
              false _ hvp_mem
            rw [hmt] at h2
            exact h2
          rcases hwt : fst.writeFile
              (env ++ ["temp", wg.idStream wg.idCount] ++ ["template"])
              (FileData.textData (get_template pm base)) with ⟨fsw, wres⟩
          rw [hwt] at hC
          cases wres with
          | error e =>
            dsimp only at hC
            simp at hC
          | ok u2 =>
            cases u2
            have hfsw : fsw = fst.setFile
                (env ++ ["temp", wg.idStream wg.idCount] ++ ["template"])
                (FileData.textData (get_template pm base)) := FS.writeFile_ok hwt
            have hfsw_rp : fsw.files.lookup (registryPath env) = fst.files.lookup (registryPath env) := by
              rw [hfsw, FS.setFile_lookup]
              rw [if_neg (show ¬(registryPath env
                = env ++ ["temp", wg.idStream wg.idCount] ++ ["template"]) from
                append_singleton_ne (by decide))]
            have hfsw_mem : (cp ++ [version]) ∈ fsw.dirs := by
              rw [hfsw, FS.setFile_dirs]
              exact hfst_mem
            unfold World.extCall at hC
            dsimp only at hC
            cases hx0 : wg.ext wg.extCount with
            | false =>
              rw [hx0] at hC
              rw [if_neg (by simp)] at hC
              simp at hC
            | true =>
              rw [hx0] at hC
              rw [if_pos rfl] at hC
              dsimp only at hC
              unfold record_asciicast World.extCall at hC
              dsimp only at hC
              cases hx1 : wg.ext (wg.extCount + 1) with
              | false =>
                rw [hx1] at hC
                rw [if_neg (by simp)] at hC
                simp at hC
              | true =>
                rw [hx1] at hC
                rw [if_pos rfl] at hC
                dsimp only at hC
                unfold convert_container_to_sif World.extCall at hC
                dsimp only at hC
                cases hx2 : wg.ext (wg.extCount + 1 + 1) with
                | false =>
                  rw [hx2] at hC
                  rw [if_neg (by simp)] at hC
                  simp at hC
                | true =>
                  rw [hx2] at hC
                  rw [if_pos rfl] at hC
                  dsimp only at hC
                  unfold cleanup_temporary_path World.extCall at hC
                  dsimp only at hC
                  cases hx3 : wg.ext (wg.extCount + 1 + 1 + 1) with
                  | false =>
                    rw [hx3] at hC
                    rw [if_neg (by simp)] at hC
                    simp at hC
                  | true =>
                    rw [hx3] at hC
                    rw [if_pos rfl] at hC
                    rw [Prod.mk.injEq] at hC
                    obtain ⟨hw1, -⟩ := hC
                    rw [← hw1]
                    dsimp only
                    refine ⟨r1, cp, ?_, F2, ?_⟩
                    · rw [FS.rmrf_lookup hNL1, FS.setFile_lookup,
                        if_neg (show ¬(registryPath env
                          = cp ++ [version] ++ ["container.sif"]) from
                          append_singleton_ne (by decide)), FS.setFile_lookup,
                        if_neg (show ¬(registryPath env
                          = get_container_recording_path (cp ++ [version])) from
                          append_singleton_ne (by decide))]
                      show ((fsw.addDir _).files.lookup (registryPath env)) = _
                      rw [FS.addDir_files, hfsw_rp, hfst_files, hfsv_files]
                      exact F1
                    · refine pathExists_of_mem_dirs ?_
                      refine FS.rmrf_mem_dirs ?_ hNL2
                      rw [FS.setFile_dirs, FS.setFile_dirs]
                      exact FS.mem_dirs_addDir _ hfsw_mem

/-- Claim C5: after a successful first create of (name, version) from a
well-formed filesystem, running the identical create again fails with the
duplicate-version error before any build step, leaving the world — all
artifacts, the registry, the trace and the oracle cursors — exactly
unchanged. -/
theorem C5_create_twice (name base version pkg : String) (env : Path) (w : World)
    (hwf : w.fs.wfB = true) (hv : version ≠ "")
    (hok : (cmd_create name base version pkg env w).2 = Except.ok ()) :
    cmd_create name base version pkg env (cmd_create name base version pkg env w).1
      = ((cmd_create name base version pkg env w).1, Except.error Err.duplicateVersion) := by
  have hC : cmd_create name base version pkg env w
      = ((cmd_create name base version pkg env w).1, Except.ok ()) := by
    rw [← hok]
  obtain ⟨hpm2, r1, cp, hfile, hname, hver⟩ :=
    cmd_create_ok_state name base version pkg env w _ hwf hv hC
  exact cmd_create_duplicate hfile hname hver hv hpm2

/-- Witness for C5 at a concrete world: a full successful create on an empty
environment, then the identical create again. -/
theorem C5_witness :
    emptyWorld.fs.wfB = true ∧
    (cmd_create "alpha" "ubuntu:22.04" "v1" "" ["e"] emptyWorld).2 = Except.ok () ∧
    cmd_create "alpha" "ubuntu:22.04" "v1" "" ["e"]
        (cmd_create "alpha" "ubuntu:22.04" "v1" "" ["e"] emptyWorld).1
      = ((cmd_create "alpha" "ubuntu:22.04" "v1" "" ["e"] emptyWorld).1,
         Except.error Err.duplicateVersion) :=
  ⟨rfl, rfl,
   C5_create_twice "alpha" "ubuntu:22.04" "v1" "" ["e"] emptyWorld rfl (by decide) rfl⟩

/-! ### Claim C7: every command preserves the registry invariant -/

/-- A failed `os.mkdir` changes nothing. -/
theorem mkdir_error {fs fs2 : FS} {p : Path} {e : Err}
    (h : fs.mkdir p = (fs2, .error e)) : fs2 = fs := by
  unfold FS.mkdir at h
  by_cases h1 : fs.pathExists p = true
  · rw [if_pos h1, Prod.mk.injEq] at h
    exact h.1.symm
  · simp only [Bool.not_eq_true] at h1
    by_cases h2 : fs.isDirB p.dropLast = true
    · simp only [h1, Bool.false_eq_true, if_false, h2, Bool.not_true,
        Bool.false_eq_true, if_false] at h
      simp at h
    · simp only [Bool.not_eq_true] at h2
      simp only [h1, Bool.false_eq_true, if_false, h2, Bool.not_false,
        eq_self_iff_true, if_pos trivial] at h
      rw [Prod.mk.injEq] at h
      exact h.1.symm

/-- A failed `open(p, "w")` write changes nothing. -/
theorem writeFile_error {fs fs2 : FS} {p : Path} {d : FileData} {e : Err}
    (h : fs.writeFile p d = (fs2, .error e)) : fs2 = fs := by
  unfold FS.writeFile at h
  by_cases h1 : fs.isDirB p = true
  · rw [if_pos h1, Prod.mk.injEq] at h
    exact h.1.symm
  · simp only [Bool.not_eq_true] at h1
    by_cases h2 : fs.isDirB p.dropLast = true
    · simp only [h1, Bool.false_eq_true, if_false, h2, Bool.not_true,
        Bool.false_eq_true, if_false] at h
      simp at h
    · simp only [Bool.not_eq_true] at h2
      simp only [h1, Bool.false_eq_true, if_false, h2, Bool.not_false,
        eq_self_iff_true, if_pos trivial] at h
      rw [Prod.mk.injEq] at h
      exact h.1.symm

/-- A nonempty path that is a directory is recorded in `dirs`. -/
theorem mem_dirs_of_isDirB {fs : FS} {q : Path} (h : fs.isDirB q = true)
    (hq : q ≠ []) : q ∈ fs.dirs := by
  have hie : q.isEmpty = false := List.isEmpty_eq_false.mpr hq
  simp only [FS.isDirB, hie, Bool.false_or] at h
  exact containsMem.mp h

/-- A failed `get_container_path` leaves the files exactly as they were;
directories only grow and well-formedness is preserved. -/
theorem get_container_path_error {w w1 : World} {env : Path} {name : String} {e : Err}
    (h : get_container_path w env name = (w1, .error e)) :
    w1.fs.files = w.fs.files ∧
    (∀ q, w.fs.isDirB q = true → w1.fs.isDirB q = true) ∧
    (w.fs.wfB = true → w1.fs.wfB = true) := by
  unfold get_container_path at h
  rcases hl : load_registry w.fs env with ⟨fs, res0⟩
  rw [hl] at h
  obtain ⟨L1, L2, L3, L4⟩ := load_registry_fst w.fs env
  rw [hl] at L1 L2 L3 L4
  cases res0 with
  | error e0 =>
    dsimp only at h
    rw [Prod.mk.injEq] at h
    obtain ⟨hw1, -⟩ := h
    rw [← hw1]
    exact ⟨L1, L4, L3⟩
  | ok registry =>
    dsimp only at h
    rcases hn : registry.containers.lookup name with - | p0
    · rw [hn] at h
      dsimp only [generate_container_id, World.freshUuid] at h
      rcases hm : fs.makedirs (env ++ [w.idStream w.idCount]) false with ⟨fs2, mres⟩
      rw [hm] at h
      have M1 := FS.makedirs_files fs (env ++ [w.idStream w.idCount]) false
      have M2 := fun q hq => @FS.makedirs_isDirB_mono fs q
        (env ++ [w.idStream w.idCount]) false hq
      have M3 := fun hwf => @FS.makedirs_wf fs
        (env ++ [w.idStream w.idCount]) false hwf
      rw [hm] at M1 M2 M3
      cases mres with
      | error e0 =>
        dsimp only at h
        rw [Prod.mk.injEq] at h
        obtain ⟨hw1, -⟩ := h
        rw [← hw1]
        exact ⟨M1.trans L1, fun q hq => M2 q (L4 q hq), fun hwf => M3 (L3 hwf)⟩
      | ok u =>
        cases u
        dsimp only at h
        rcases hs : save_registry fs2 env
            { version := registry.version,
              containers := registry.containers ++ [(name, env ++ [w.idStream w.idCount])] }
          with ⟨fs3, sres⟩
        rw [hs] at h
        cases sres with
        | error e0 =>
          dsimp only at h
          rw [Prod.mk.injEq] at h
          obtain ⟨hw1, -⟩ := h
          obtain ⟨S1, -, S3, S4⟩ := save_registry_error hs
          rw [← hw1]
          exact ⟨(S1.trans M1).trans L1,
            fun q hq => S4 q (M2 q (L4 q hq)),
            fun hwf => S3 (M3 (L3 hwf))⟩
        | ok u2 =>
          cases u2
          dsimp only at h
          simp at h
    · rw [hn] at h
      dsimp only at h
      simp at h

/-- `get_container_version_path` never touches files; directories only grow
and well-formedness is preserved, whatever the outcome. -/
theorem gcvp_pres {fs fsv : FS} {cp : Path} {version : String} {b : Bool}
    {res : Except Err (Path × Bool)}
    (h : get_container_version_path fs cp version b = (fsv, res)) :
    fsv.files = fs.files ∧
    (∀ q, fs.isDirB q = true → fsv.isDirB q = true) ∧
    (fs.wfB = true → fsv.wfB = true) := by
  unfold get_container_version_path at h
  by_cases hex : fs.pathExists (cp ++ [version]) = true
  · simp only [hex, Bool.not_true, Bool.false_eq_true, if_false] at h
    rw [Prod.mk.injEq] at h
    obtain ⟨hfs, -⟩ := h
    rw [← hfs]
    exact ⟨rfl, fun q hq => hq, fun hwf => hwf⟩
  · simp only [Bool.not_eq_true] at hex
    simp only [hex, Bool.not_false, eq_self_iff_true, if_pos trivial] at h
    cases b with
    | false =>
      rw [if_neg (by simp)] at h
      rw [Prod.mk.injEq] at h
      obtain ⟨hfs, -⟩ := h
      rw [← hfs]
      exact ⟨rfl, fun q hq => hq, fun hwf => hwf⟩
    | true =>
      rw [if_pos rfl] at h
      rcases hm : fs.mkdir (cp ++ [version]) with ⟨fs2, mres⟩
      rw [hm] at h
      cases mres with
      | error e =>
        dsimp only at h
        rw [Prod.mk.injEq] at h
        obtain ⟨hfs, -⟩ := h
        have h2 : fs2 = fs := mkdir_error hm
        rw [← hfs, h2]
        exact ⟨rfl, fun q hq => hq, fun hwf => hwf⟩
      | ok u =>
        cases u
        dsimp only at h
        rw [Prod.mk.injEq] at h
        obtain ⟨hfs, -⟩ := h
        obtain ⟨m1, -, m3⟩ := FS.mkdir_ok hm
        rw [← hfs, m1]
        refine ⟨FS.addDir_files _ _, fun q hq => FS.isDirB_mono_addDir _ hq, ?_⟩
        intro hwf
        exact FS.wfB_addDir hwf (by simp) m3

/-- `cmd_list` only ever performs the `load_registry` filesystem effects. -/
theorem cmd_list_pres {env : Path} {w : World}
    (hinv : registryInvB w.fs env = true) :
    registryInvB (cmd_list env w).1.fs env = true ∧
    (∀ q, w.fs.isDirB q = true → (cmd_list env w).1.fs.isDirB q = true) := by
  obtain ⟨L1, -, -, L4⟩ := load_registry_fst w.fs env
  have hfs : (cmd_list env w).1.fs = (load_registry w.fs env).1 := by
    unfold cmd_list
    rcases hl : load_registry w.fs env with ⟨fs, res⟩
    cases res with
    | error e => rfl
    | ok registry =>
      dsimp only
  rw [hfs]
  exact ⟨registryInvB_mono (by rw [L1]) L4 hinv, L4⟩

/-- `cmd_run` preserves the registry invariant and never deletes a
directory, whatever its outcome. -/
theorem cmd_run_pres {name version : String} {env : Path} {w w1 : World}
    {res : Except Err Unit}
    (hC : cmd_run name version env w = (w1, res))
    (hinv : registryInvB w.fs env = true) :
    registryInvB w1.fs env = true ∧
    (∀ q, w.fs.isDirB q = true → w1.fs.isDirB q = true) := by
  unfold cmd_run at hC
  rcases hg : get_container_path w env name with ⟨wg, gres⟩
  rw [hg] at hC
  cases gres with
  | error e =>
    dsimp only at hC
    rw [Prod.mk.injEq] at hC
    obtain ⟨hw1, -⟩ := hC
    obtain ⟨E1, E2, -⟩ := get_container_path_error hg
    rw [← hw1]
    exact ⟨registryInvB_mono (by rw [E1]) E2 hinv, E2⟩
  | ok cp =>
    dsimp only at hC
    obtain ⟨r1, F1, -, -, -, Fmono, Fwf, Finv, -, -, -, -⟩ := get_container_path_ok hg
    have hinvg : registryInvB wg.fs env = true := Finv hinv
    rcases hv2 : get_container_version_path wg.fs cp version true with ⟨fsv, vres⟩
    rw [hv2] at hC
    obtain ⟨V1, V2, -⟩ := gcvp_pres hv2
    have hterm : registryInvB fsv env = true ∧
        (∀ q, w.fs.isDirB q = true → fsv.isDirB q = true) :=
      ⟨registryInvB_mono (by rw [V1]) V2 hinvg, fun q hq => V2 q (Fmono q hq)⟩
    cases vres with
    | error e =>
      dsimp only at hC
      rw [Prod.mk.injEq] at hC
      obtain ⟨hw1, -⟩ := hC
      rw [← hw1]
      exact hterm
    | ok vpex =>
      obtain ⟨vp, ex⟩ := vpex
      dsimp only at hC
      cases ex with
      | false =>
        rw [if_pos (by simp)] at hC
        rw [Prod.mk.injEq] at hC
        obtain ⟨hw1, -⟩ := hC
        rw [← hw1]
        exact hterm
      | true =>
        rw [if_neg (by simp)] at hC
        unfold singularity_run World.extCall at hC
        dsimp only at hC
        cases hx : wg.ext wg.extCount with
        | false =>
          rw [hx] at hC
          rw [if_neg (by simp)] at hC
          rw [Prod.mk.injEq] at hC
          obtain ⟨hw1, -⟩ := hC
          rw [← hw1]
          exact hterm
        | true =>
          rw [hx] at hC
          rw [if_pos rfl] at hC
          rw [Prod.mk.injEq] at hC
          obtain ⟨hw1, -⟩ := hC
          rw [← hw1]
          exact hterm

/-- `cmd_replay` preserves the registry invariant and never deletes a
directory, whatever its outcome. -/
theorem cmd_replay_pres {name version : String} {env : Path} {w w1 : World}
    {res : Except Err Unit}
    (hC : cmd_replay name version env w = (w1, res))
    (hinv : registryInvB w.fs env = true) :
    registryInvB w1.fs env = true ∧
    (∀ q, w.fs.isDirB q = true → w1.fs.isDirB q = true) := by
  unfold cmd_replay at hC
  rcases hg : get_container_path w env name with ⟨wg, gres⟩
  rw [hg] at hC
  cases gres with
  | error e =>
    dsimp only at hC
    rw [Prod.mk.injEq] at hC
    obtain ⟨hw1, -⟩ := hC
    obtain ⟨E1, E2, -⟩ := get_container_path_error hg
    rw [← hw1]
    exact ⟨registryInvB_mono (by rw [E1]) E2 hinv, E2⟩
  | ok cp =>
    dsimp only at hC
    obtain ⟨r1, F1, -, -, -, Fmono, Fwf, Finv, -, -, -, -⟩ := get_container_path_ok hg
    have hinvg : registryInvB wg.fs env = true := Finv hinv
    rcases hv2 : get_container_version_path wg.fs cp version false with ⟨fsv, vres⟩
    rw [hv2] at hC
    obtain ⟨V1, V2, -⟩ := gcvp_pres hv2
    have hterm : registryInvB fsv env = true ∧
        (∀ q, w.fs.isDirB q = true → fsv.isDirB q = true) :=
      ⟨registryInvB_mono (by rw [V1]) V2 hinvg, fun q hq => V2 q (Fmono q hq)⟩
    cases vres with
    | error e =>
      dsimp only at hC
      rw [Prod.mk.injEq] at hC
      obtain ⟨hw1, -⟩ := hC
      rw [← hw1]
      exact hterm
    | ok vpex =>
      obtain ⟨vp, ex⟩ := vpex
      dsimp only at hC
      cases ex with
      | false =>
        rw [if_pos (by simp)] at hC
        rw [Prod.mk.injEq] at hC
        obtain ⟨hw1, -⟩ := hC
        rw [← hw1]
        exact hterm
      | true =>
        rw [if_neg (by simp)] at hC
        unfold play_recording at hC
        dsimp only at hC
        cases hpf : fsv.isFile (get_container_recording_path vp) with
        | false =>
          rw [hpf] at hC
          rw [if_pos (by simp)] at hC
          rw [Prod.mk.injEq] at hC
          obtain ⟨hw1, -⟩ := hC
          rw [← hw1]
          exact hterm
        | true =>
          rw [hpf] at hC
          rw [if_neg (by simp)] at hC
          unfold World.extCall at hC
          dsimp only at hC
          cases hx : wg.ext wg.extCount with
          | false =>
            rw [hx] at hC
            rw [if_neg (by simp)] at hC
            rw [Prod.mk.injEq] at hC
            obtain ⟨hw1, -⟩ := hC
            rw [← hw1]
            exact hterm
          | true =>
            rw [hx] at hC
            rw [if_pos rfl] at hC
            rw [Prod.mk.injEq] at hC
            obtain ⟨hw1, -⟩ := hC
            rw [← hw1]
            exact hterm

/-- `cmd_create` preserves the registry invariant and never deletes a
directory that existed before the call, whatever its outcome: the final
`sudo rm -rf temp_dir` cannot reach the registry file (it is not under the
temporary workspace) nor any pre-existing directory, because the
`os.makedirs(temp_dir)` of the build only succeeds when `temp_dir` is fresh,
and on a well-formed filesystem nothing can live below a directory that does
not exist. -/
theorem cmd_create_pres {name base version pkg : String} {env : Path} {w w1 : World}
    {res : Except Err Unit}
    (hC : cmd_create name base version pkg env w = (w1, res))
    (hwf : w.fs.wfB = true) (hinv : registryInvB w.fs env = true) :
    registryInvB w1.fs env = true ∧
    (∀ q, w.fs.isDirB q = true → w1.fs.isDirB q = true) := by
  unfold cmd_create at hC
  revert hC
  generalize (if (version == "") = true then generate_version w else version) = ver
  intro hC
  dsimp only at hC
  rcases hpm : (if (pkg == "") = true then
      (if get_package_manager base == "unknown" then Except.error Err.unknownPackageManager
       else Except.ok (get_package_manager base))
      else Except.ok pkg) with e0 | pm
  all_goals rw [hpm] at hC
  case error =>
    dsimp only at hC
    rw [Prod.mk.injEq] at hC
    obtain ⟨hw1, -⟩ := hC
    rw [← hw1]
    exact ⟨hinv, fun q hq => hq⟩
  case ok =>
  dsimp only at hC
  rcases hg : get_container_path w env name with ⟨wg, gres⟩
  rw [hg] at hC
  cases gres with
  | error e =>
    dsimp only at hC
    rw [Prod.mk.injEq] at hC
    obtain ⟨hw1, -⟩ := hC
    obtain ⟨E1, E2, -⟩ := get_container_path_error hg
    rw [← hw1]
    exact ⟨registryInvB_mono (by rw [E1]) E2 hinv, E2⟩
  | ok cp =>
    dsimp only at hC
    obtain ⟨r1, F1, -, -, -, Fmono, Fwf, Finv, -, -, -, -⟩ := get_container_path_ok hg
    have hinvg : registryInvB wg.fs env = true := Finv hinv
    have hwfg : wg.fs.wfB = true := Fwf hwf
    have hdirs1 : ∀ nc ∈ r1.containers, wg.fs.isDirB nc.2 = true :=
      registryInvB_lookup F1 hinvg
    rcases hv2 : get_container_version_path wg.fs cp ver true with ⟨fsv, vres⟩
    rw [hv2] at hC
    obtain ⟨V1, V2, V3⟩ := gcvp_pres hv2
    have hFv : fsv.files.lookup (registryPath env) = some (FileData.registryData r1) := by
      rw [V1]
      exact F1
    have hMv : ∀ q, wg.fs.isDirB q = true → fsv.isDirB q = true := V2
    have hwfv : fsv.wfB = true := V3 hwfg
    have hterm : registryInvB fsv env = true ∧
        (∀ q, w.fs.isDirB q = true → fsv.isDirB q = true) :=
      ⟨registryInvB_of_lookup hFv (fun nc hnc => hMv _ (hdirs1 nc hnc)),
       fun q hq => hMv q (Fmono q hq)⟩
    cases vres with
    | error e =>
      dsimp only at hC
      rw [Prod.mk.injEq] at hC
      obtain ⟨hw1, -⟩ := hC
      rw [← hw1]
      exact hterm
    | ok vpex =>
      obtain ⟨vp, ex⟩ := vpex
      dsimp only at hC
      cases ex with
      | true =>
        rw [if_pos rfl] at hC
        rw [Prod.mk.injEq] at hC
        obtain ⟨hw1, -⟩ := hC
        rw [← hw1]
        exact hterm
      | false =>
        rw [if_neg (by simp)] at hC
        unfold build_container_sandbox World.freshUuid at hC
        dsimp only at hC
        rcases hmt : fsv.makedirs (env ++ ["temp", wg.idStream wg.idCount]) false
          with ⟨fst, tres⟩
        rw [hmt] at hC
        have T1 : fst.files = fsv.files := by
          have h2 := FS.makedirs_files fsv (env ++ ["temp", wg.idStream wg.idCount]) false
          rw [hmt] at h2
          exact h2
        have T2 : ∀ q, fsv.isDirB q = true → fst.isDirB q = true := by
          intro q hq
          have h2 := @FS.makedirs_isDirB_mono fsv q
            (env ++ ["temp", wg.idStream wg.idCount]) false hq
          rw [hmt] at h2
          exact h2
        cases tres with
        | error e =>
          dsimp only at hC
          rw [Prod.mk.injEq] at hC
          obtain ⟨hw1, -⟩ := hC
          rw [← hw1]
          refine ⟨registryInvB_of_lookup (by rw [T1]; exact hFv) ?_, ?_⟩
          · exact fun nc hnc => T2 _ (hMv _ (hdirs1 nc hnc))
          · exact fun q hq => T2 q (hMv q (Fmono q hq))
        | ok u =>
          cases u
          dsimp only at hC
          have hnex_t : fsv.pathExists (env ++ ["temp", wg.idStream wg.idCount]) = false :=
            FS.makedirs_ok_not_exists hmt
          have hNL : ∀ q, wg.fs.isDirB q = true →
              leadsTo (env ++ ["temp", wg.idStream wg.idCount]) q = false := by
            intro q hq
            by_cases hqe : q = []
            · subst hqe
              refine leadsTo_eq_false_of_lt ?_
              simp only [List.length_nil, List.length_append, List.length_cons,
                List.length_nil]
              omega
            · exact not_leadsTo_of_dir_not_exists hwfv
                (mem_dirs_of_isDirB (hMv q hq) hqe) (by simp) hnex_t
          have hNL1 : leadsTo (env ++ ["temp", wg.idStream wg.idCount])
              (registryPath env) = false := by
            refine leadsTo_eq_false_of_lt ?_
            simp [registryPath]
          rcases hwt : fst.writeFile
              (env ++ ["temp", wg.idStream wg.idCount] ++ ["template"])
              (FileData.textData (get_template pm base)) with ⟨fsw, wres⟩
          rw [hwt] at hC
          cases wres with
          | error e =>
            dsimp only at hC
            rw [Prod.mk.injEq] at hC
            obtain ⟨hw1, -⟩ := hC
            have hfsw : fsw = fst := writeFile_error hwt
            rw [← hw1, hfsw]
            refine ⟨registryInvB_of_lookup (by rw [T1]; exact hFv) ?_, ?_⟩
            · exact fun nc hnc => T2 _ (hMv _ (hdirs1 nc hnc))
            · exact fun q hq => T2 q (hMv q (Fmono q hq))
          | ok u2 =>
            cases u2
            have hfsw : fsw = fst.setFile
                (env ++ ["temp", wg.idStream wg.idCount] ++ ["template"])
                (FileData.textData (get_template pm base)) := FS.writeFile_ok hwt
            have W1 : fsw.files.lookup (registryPath env)
                = some (FileData.registryData r1) := by
              rw [hfsw, FS.setFile_lookup,
                if_neg (show ¬(registryPath env
                  = env ++ ["temp", wg.idStream wg.idCount] ++ ["template"]) from
                  append_singleton_ne (by decide)), T1]
              exact hFv
            have W2 : ∀ q, fsv.isDirB q = true → fsw.isDirB q = true := by
              intro q hq
              rw [hfsw]
              exact FS.isDirB_of_dirs_eq (FS.setFile_dirs _ _ _) (T2 q hq)
            unfold World.extCall at hC
            dsimp only at hC
            cases hx0 : wg.ext wg.extCount with
            | false =>
              rw [hx0] at hC
              rw [if_neg (by simp)] at hC
              dsimp only at hC
              rw [Prod.mk.injEq] at hC
              obtain ⟨hw1, -⟩ := hC
              rw [← hw1]
              refine ⟨registryInvB_of_lookup W1 ?_, ?_⟩
              · exact fun nc hnc => W2 _ (hMv _ (hdirs1 nc hnc))
              · exact fun q hq => W2 q (hMv q (Fmono q hq))
            | true =>
              rw [hx0] at hC
              rw [if_pos rfl] at hC
              dsimp only at hC
              have A1 : (fsw.addDir (env ++ ["temp", wg.idStream wg.idCount]
                  ++ ["sandbox"])).files.lookup (registryPath env)
                  = some (FileData.registryData r1) := by
                rw [FS.addDir_files]
                exact W1
              have A2 : ∀ q, fsv.isDirB q = true →
                  (fsw.addDir (env ++ ["temp", wg.idStream wg.idCount]
                    ++ ["sandbox"])).isDirB q = true :=
                fun q hq => FS.isDirB_mono_addDir _ (W2 q hq)
              unfold record_asciicast World.extCall at hC
              dsimp only at hC
              cases hx1 : wg.ext (wg.extCount + 1) with
              | false =>
                rw [hx1] at hC
                rw [if_neg (by simp)] at hC
                dsimp only at hC
                rw [Prod.mk.injEq] at hC
                obtain ⟨hw1, -⟩ := hC
                rw [← hw1]
                refine ⟨registryInvB_of_lookup A1 ?_, ?_⟩
                · exact fun nc hnc => A2 _ (hMv _ (hdirs1 nc hnc))
                · exact fun q hq => A2 q (hMv q (Fmono q hq))
              | true =>
                rw [hx1] at hC
                rw [if_pos rfl] at hC
                dsimp only at hC
                have R1 : ((fsw.addDir (env ++ ["temp", wg.idStream wg.idCount]
                    ++ ["sandbox"])).setFile (get_container_recording_path vp)
                    FileData.castData).files.lookup (registryPath env)
                    = some (FileData.registryData r1) := by
                  rw [FS.setFile_lookup,
                    if_neg (show ¬(registryPath env
                      = get_container_recording_path vp) from
                      append_singleton_ne (by decide))]
                  exact A1
                have R2 : ∀ q, fsv.isDirB q = true →
                    ((fsw.addDir (env ++ ["temp", wg.idStream wg.idCount]
                      ++ ["sandbox"])).setFile (get_container_recording_path vp)
                      FileData.castData).isDirB q = true :=
                  fun q hq =>
                    FS.isDirB_of_dirs_eq (FS.setFile_dirs _ _ _) (A2 q hq)
                unfold convert_container_to_sif World.extCall at hC
                dsimp only at hC
                cases hx2 : wg.ext (wg.extCount + 1 + 1) with
                | false =>
                  rw [hx2] at hC
                  rw [if_neg (by simp)] at hC
                  dsimp only at hC
                  rw [Prod.mk.injEq] at hC
                  obtain ⟨hw1, -⟩ := hC
                  rw [← hw1]
                  refine ⟨registryInvB_of_lookup R1 ?_, ?_⟩
                  · exact fun nc hnc => R2 _ (hMv _ (hdirs1 nc hnc))
                  · exact fun q hq => R2 q (hMv q (Fmono q hq))
                | true =>
                  rw [hx2] at hC
                  rw [if_pos rfl] at hC
                  dsimp only at hC
                  have S1 : (((fsw.addDir (env ++ ["temp", wg.idStream wg.idCount]
                      ++ ["sandbox"])).setFile (get_container_recording_path vp)
                      FileData.castData).setFile (vp ++ ["container.sif"])
                      FileData.sifData).files.lookup (registryPath env)
                      = some (FileData.registryData r1) := by
                    rw [FS.setFile_lookup,
                      if_neg (show ¬(registryPath env
                        = vp ++ ["container.sif"]) from
                        append_singleton_ne (by decide))]
                    exact R1
                  have S2 : ∀ q, fsv.isDirB q = true →
                      (((fsw.addDir (env ++ ["temp", wg.idStream wg.idCount]
                        ++ ["sandbox"])).setFile (get_container_recording_path vp)
                        FileData.castData).setFile (vp ++ ["container.sif"])
                        FileData.sifData).isDirB q = true :=
                    fun q hq =>
                      FS.isDirB_of_dirs_eq (FS.setFile_dirs _ _ _) (R2 q hq)
                  unfold cleanup_temporary_path World.extCall at hC
                  dsimp only at hC
                  cases hx3 : wg.ext (wg.extCount + 1 + 1 + 1) with
                  | false =>
                    rw [hx3] at hC
                    rw [if_neg (by simp)] at hC
                    rw [Prod.mk.injEq] at hC
                    obtain ⟨hw1, -⟩ := hC
                    rw [← hw1]
                    refine ⟨registryInvB_of_lookup S1 ?_, ?_⟩
                    · exact fun nc hnc => S2 _ (hMv _ (hdirs1 nc hnc))
                    · exact fun q hq => S2 q (hMv q (Fmono q hq))
                  | true =>
                    rw [hx3] at hC
                    rw [if_pos rfl] at hC
                    rw [Prod.mk.injEq] at hC
                    obtain ⟨hw1, -⟩ := hC
                    rw [← hw1]
                    dsimp only
                    have Z1 : ((((fsw.addDir (env ++ ["temp", wg.idStream wg.idCount]
                        ++ ["sandbox"])).setFile (get_container_recording_path vp)
                        FileData.castData).setFile (vp ++ ["container.sif"])
                        FileData.sifData).rmrf (env ++ ["temp", wg.idStream wg.idCount])
                        ).files.lookup (registryPath env)
                        = some (FileData.registryData r1) := by
                      rw [FS.rmrf_lookup hNL1]
                      exact S1
                    have Z2 : ∀ q, wg.fs.isDirB q = true →
                        ((((fsw.addDir (env ++ ["temp", wg.idStream wg.idCount]
                          ++ ["sandbox"])).setFile (get_container_recording_path vp)
                          FileData.castData).setFile (vp ++ ["container.sif"])
                          FileData.sifData).rmrf (env ++ ["temp", wg.idStream wg.idCount])
                          ).isDirB q = true :=
                      fun q hq => FS.isDirB_rmrf (S2 q (hMv q hq)) (hNL q hq)
                    refine ⟨registryInvB_of_lookup Z1 ?_, ?_⟩
                    · exact fun nc hnc => Z2 _ (hdirs1 nc hnc)
                    · exact fun q hq => Z2 q (Fmono q hq)

/-- Claim C7: every operation of the program — create, run, list, replay —
preserves the registry invariant that each name in the persisted containers
mapping maps to a directory existing on disk, and no directory that existed
before the command (in particular no registered container directory) is ever
deleted, whatever the outcome. -/
theorem C7_registry_invariant (c : Cmd) (env : Path) (w : World)
    (hwf : w.fs.wfB = true) (hinv : registryInvB w.fs env = true) :
    registryInvB (runCmd c env w).1.fs env = true ∧
    (∀ q, w.fs.isDirB q = true → (runCmd c env w).1.fs.isDirB q = true) := by
  cases c with
  | create name base version pkg =>
    have hr : runCmd (Cmd.create name base version pkg) env w
        = cmd_create name base version pkg env w := rfl
    rw [hr]
    rcases hC : cmd_create name base version pkg env w with ⟨w1, res⟩
    exact cmd_create_pres hC hwf hinv
  | run name version =>
    have hr : runCmd (Cmd.run name version) env w = cmd_run name version env w := rfl
    rw [hr]
    rcases hC : cmd_run name version env w with ⟨w1, res⟩
    exact cmd_run_pres hC hinv
  | list =>
    have hfs : (runCmd Cmd.list env w).1.fs = (cmd_list env w).1.fs := by
      unfold runCmd
      rcases hcl : cmd_list env w with ⟨w2, out, err⟩
      cases err with
      | none => rfl
      | some e => rfl
    rw [hfs]
    exact cmd_list_pres hinv
  | replay name version =>
    have hr : runCmd (Cmd.replay name version) env w = cmd_replay name version env w := rfl
    rw [hr]
    rcases hC : cmd_replay name version env w with ⟨w1, res⟩
    exact cmd_replay_pres hC hinv

/-- Witness for C7 at a concrete input: a full create (all external steps
succeeding, including the final cleanup) on an empty environment keeps the
registry invariant. -/
theorem C7_witness :
    emptyWorld.fs.wfB = true ∧ registryInvB emptyWorld.fs ["e"] = true ∧
    registryInvB
      (runCmd (Cmd.create "alpha" "ubuntu:22.04" "v1" "") ["e"] emptyWorld).1.fs
      ["e"] = true :=
  ⟨rfl, rfl,
   (C7_registry_invariant (Cmd.create "alpha" "ubuntu:22.04" "v1" "") ["e"]
     emptyWorld rfl rfl).1⟩


end NeuroBuilder
